import Mathlib

/-!
Shallow embedding of the scalar conversion kernels of the yuvutils-rs
repository (src/yuv_support.rs, src/rgba_to_nv.rs, src/yuv_nv_to_rgba.rs,
src/yuv_to_yuy2.rs, src/yuy2_to_yuv.rs, and the yuvs crate's yuv422.rs),
together with proofs about the claims of the specification.

Modelling conventions:
* Rust `f32` arithmetic is modelled by exact rational arithmetic (ℚ).  Every
  coefficient this development quantizes to an integer is at distance at
  least 0.02 from the nearest rounding boundary, while the accumulated
  IEEE-754 single-precision rounding error of these short expression chains
  is below 1e-4, so the quantized integers coincide with the ones the Rust
  code computes.
* Rust `i32` arithmetic is modelled by ℤ.  All intermediate values of the
  8-bit kernels fit comfortably in `i32`, so no wraparound modelling is
  needed; the arithmetic right shift `>> p` of `i32` is floor division,
  which for a positive divisor coincides with Lean's `Int` division `/`.
* A Rust `as u8` cast is `(· % 256).toNat` on ℤ (two's-complement low byte).
* Byte buffers (`&[u8]` / `&mut [u8]`) are `List Nat`; reading through
  `get_unchecked` is `List.getD _ 0`, writing through `get_unchecked_mut`
  is `List.set` (which silently drops an out-of-bounds write; theorems that
  depend on buffer contents carry explicit length hypotheses so that every
  relevant access is in bounds).
* The architecture-specific SIMD fast paths are compiled out in the
  reference scalar build (`cx = 0`, `ux = 0` survive them unchanged), so the
  embedding contains only the scalar loops.
-/

/-- Rust `f32::round`: round half away from zero. -/
def rustRound (q : ℚ) : Int :=
  if 0 ≤ q then ⌊q + 1/2⌋ else -⌊-q + 1/2⌋

/-- Rust `i32::clamp(lo, hi)`. -/
def rust_clamp (x lo hi : Int) : Int :=
  if x < lo then lo else if x > hi then hi else x

/-- `YuvRange` of src/yuv_support.rs. -/
inductive YuvRange where
  | TV
  | Full
deriving DecidableEq

/-- `YuvChromaRange` of src/yuv_support.rs (the `range` field is omitted:
it merely echoes the argument of `get_yuv_range`). -/
structure YuvChromaRange where
  bias_y : Nat
  bias_uv : Nat
  range_y : Nat
  range_uv : Nat
deriving DecidableEq

/-- `get_yuv_range` of src/yuv_support.rs; `a << b` on `u32` is written
`a * 2 ^ b` (no overflow at the bit depths in use). -/
def get_yuv_range (depth : Nat) (range : YuvRange) : YuvChromaRange :=
  match range with
  | YuvRange.TV =>
    { bias_y := 16 * 2 ^ (depth - 8)
      bias_uv := 2 ^ (depth - 1)
      range_y := 219 * 2 ^ (depth - 8)
      range_uv := 224 * 2 ^ (depth - 8) }
  | YuvRange.Full =>
    { bias_y := 0
      bias_uv := 2 ^ (depth - 1)
      range_uv := 2 ^ depth - 1
      range_y := 2 ^ depth - 1 }

/-- `YuvStandardMatrix` of src/yuv_support.rs. -/
inductive YuvStandardMatrix where
  | Bt601
  | Bt709
  | Bt2020
  | Smpte240
  | Bt470_6
  | Custom (kr : ℚ) (kb : ℚ)

/-- `YuvBias` of src/yuv_support.rs. -/
structure YuvBias where
  kr : ℚ
  kb : ℚ

/-- `YuvStandardMatrix::get_kr_kb` of src/yuv_support.rs. -/
def YuvStandardMatrix.get_kr_kb : YuvStandardMatrix → YuvBias
  | YuvStandardMatrix.Bt601 => { kr := 0.299, kb := 0.114 }
  | YuvStandardMatrix.Bt709 => { kr := 0.2126, kb := 0.0722 }
  | YuvStandardMatrix.Bt2020 => { kr := 0.2627, kb := 0.0593 }
  | YuvStandardMatrix.Smpte240 => { kr := 0.087, kb := 0.212 }
  | YuvStandardMatrix.Bt470_6 => { kr := 0.2220, kb := 0.0713 }
  | YuvStandardMatrix.Custom kr kb => { kr := kr, kb := kb }

/-- `CbCrForwardTransform<T>` of src/yuv_support.rs. -/
structure CbCrForwardTransform (T : Type) where
  yr : T
  yg : T
  yb : T
  cb_r : T
  cb_g : T
  cb_b : T
  cr_r : T
  cr_g : T
  cr_b : T
deriving DecidableEq

/-- `CbCrInverseTransform<T>` of src/yuv_support.rs. -/
structure CbCrInverseTransform (T : Type) where
  y_coef : T
  cr_coef : T
  cb_coef : T
  g_coeff_1 : T
  g_coeff_2 : T
deriving DecidableEq

/-- `CbCrForwardTransform<f32>::to_integers` of src/yuv_support.rs. -/
def CbCrForwardTransform.to_integers (t : CbCrForwardTransform ℚ) (precision : Nat) :
    CbCrForwardTransform Int :=
  let scale : ℚ := (2 ^ precision : ℕ)
  { yr := rustRound (t.yr * scale)
    yg := rustRound (t.yg * scale)
    yb := rustRound (t.yb * scale)
    cb_r := rustRound (t.cb_r * scale)
    cb_g := rustRound (t.cb_g * scale)
    cb_b := rustRound (t.cb_b * scale)
    cr_r := rustRound (t.cr_r * scale)
    cr_g := rustRound (t.cr_g * scale)
    cr_b := rustRound (t.cr_b * scale) }

/-- `CbCrInverseTransform<f32>::to_integers` of src/yuv_support.rs. -/
def CbCrInverseTransform.to_integers (t : CbCrInverseTransform ℚ) (precision : Nat) :
    CbCrInverseTransform Int :=
  let precision_scale : ℚ := (2 ^ precision : ℕ)
  { y_coef := rustRound (t.y_coef * precision_scale)
    cr_coef := rustRound (t.cr_coef * precision_scale)
    cb_coef := rustRound (t.cb_coef * precision_scale)
    g_coeff_1 := rustRound (t.g_coeff_1 * precision_scale)
    g_coeff_2 := rustRound (t.g_coeff_2 * precision_scale) }

/-- `get_forward_transform` of src/yuv_support.rs (association order of the
arithmetic mirrors the Rust source). -/
def get_forward_transform (range_rgba range_y range_uv : Nat) (kr kb : ℚ) :
    CbCrForwardTransform ℚ :=
  let kg : ℚ := 1 - kr - kb
  { yr := kr * (range_y : ℚ) / (range_rgba : ℚ)
    yg := kg * (range_y : ℚ) / (range_rgba : ℚ)
    yb := kb * (range_y : ℚ) / (range_rgba : ℚ)
    cb_r := -0.5 * kr / (1 - kb) * (range_uv : ℚ) / (range_rgba : ℚ)
    cb_g := -0.5 * kg / (1 - kb) * (range_uv : ℚ) / (range_rgba : ℚ)
    cb_b := 0.5 * (range_uv : ℚ) / (range_rgba : ℚ)
    cr_r := 0.5 * (range_uv : ℚ) / (range_rgba : ℚ)
    cr_g := -0.5 * kg / (1 - kr) * (range_uv : ℚ) / (range_rgba : ℚ)
    cr_b := -0.5 * kb / (1 - kr) * (range_uv : ℚ) / (range_rgba : ℚ) }

/-- `get_inverse_transform` of src/yuv_support.rs.  The Rust function
diverges (`panic`) when `1 - kr - kb == 0`; the model returns `none` in
that case. -/
def get_inverse_transform (range_bgra range_y range_uv : Nat) (kr kb : ℚ) :
    Option (CbCrInverseTransform ℚ) :=
  let range_uv_q : ℚ := (range_bgra : ℚ) / (range_uv : ℚ)
  let y_coef : ℚ := (range_bgra : ℚ) / (range_y : ℚ)
  let cr_coeff : ℚ := (2 * (1 - kr)) * range_uv_q
  let cb_coeff : ℚ := (2 * (1 - kb)) * range_uv_q
  let kg : ℚ := 1 - kr - kb
  if kg = 0 then none
  else
    let g_coeff_1 : ℚ := (2 * ((1 - kr) * kr / kg)) * range_uv_q
    let g_coeff_2 : ℚ := (2 * ((1 - kb) * kb / kg)) * range_uv_q
    some { y_coef := y_coef, cr_coef := cr_coeff, cb_coef := cb_coeff
           g_coeff_1 := g_coeff_1, g_coeff_2 := g_coeff_2 }

/-- The forward coefficient formulas exactly as the specification's §4.1
writes them (kept separate from `get_forward_transform`, which is the
code's version, to state the refinement claim). -/
def spec_forward_transform (range_rgba range_y range_uv : Nat) (kr kb : ℚ) :
    CbCrForwardTransform ℚ :=
  let kg : ℚ := 1 - kr - kb
  let Ry : ℚ := (range_y : ℚ)
  let Ruv : ℚ := (range_uv : ℚ)
  let Rr : ℚ := (range_rgba : ℚ)
  { yr := kr * (Ry / Rr)
    yg := kg * (Ry / Rr)
    yb := kb * (Ry / Rr)
    cb_r := -(1/2) * kr / (1 - kb) * (Ruv / Rr)
    cb_g := -(1/2) * kg / (1 - kb) * (Ruv / Rr)
    cb_b := (1/2) * (Ruv / Rr)
    cr_r := (1/2) * (Ruv / Rr)
    cr_g := -(1/2) * kg / (1 - kr) * (Ruv / Rr)
    cr_b := -(1/2) * kb / (1 - kr) * (Ruv / Rr) }

/-- The inverse coefficient formulas exactly as the specification's §4.1
writes them. -/
def spec_inverse_transform (range_rgba range_y range_uv : Nat) (kr kb : ℚ) :
    CbCrInverseTransform ℚ :=
  let kg : ℚ := 1 - kr - kb
  let Ruv : ℚ := (range_uv : ℚ)
  let Rr : ℚ := (range_rgba : ℚ)
  { y_coef := Rr / (range_y : ℚ)
    cr_coef := 2 * (1 - kr) * (Rr / Ruv)
    cb_coef := 2 * (1 - kb) * (Rr / Ruv)
    g_coeff_1 := 2 * kr * (1 - kr) / kg * (Rr / Ruv)
    g_coeff_2 := 2 * kb * (1 - kb) / kg * (Rr / Ruv) }

/-- `YuvNVOrder` of src/yuv_support.rs. -/
inductive YuvNVOrder where
  | UV
  | VU
deriving DecidableEq

/-- `YuvNVOrder::get_u_position` of src/yuv_support.rs. -/
def YuvNVOrder.get_u_position : YuvNVOrder → Nat
  | YuvNVOrder.UV => 0
  | YuvNVOrder.VU => 1

/-- `YuvNVOrder::get_v_position` of src/yuv_support.rs. -/
def YuvNVOrder.get_v_position : YuvNVOrder → Nat
  | YuvNVOrder.UV => 1
  | YuvNVOrder.VU => 0

/-- `YuvChromaSample` of src/yuv_support.rs. -/
inductive YuvChromaSample where
  | YUV420
  | YUV422
  | YUV444
deriving DecidableEq

/-- The `iterator_step` match used by the row kernels of src/rgba_to_nv.rs
and src/yuv_nv_to_rgba.rs. -/
def YuvChromaSample.iterator_step : YuvChromaSample → Nat
  | YuvChromaSample.YUV420 => 2
  | YuvChromaSample.YUV422 => 2
  | YuvChromaSample.YUV444 => 1

/-- `YuvSourceChannels` of src/yuv_support.rs. -/
inductive YuvSourceChannels where
  | Rgb
  | Rgba
  | Bgra
  | Bgr
deriving DecidableEq

/-- `YuvSourceChannels::get_channels_count` of src/yuv_support.rs. -/
def YuvSourceChannels.get_channels_count : YuvSourceChannels → Nat
  | YuvSourceChannels.Rgb | YuvSourceChannels.Bgr => 3
  | YuvSourceChannels.Rgba | YuvSourceChannels.Bgra => 4

/-- `YuvSourceChannels::has_alpha` of src/yuv_support.rs. -/
def YuvSourceChannels.has_alpha : YuvSourceChannels → Bool
  | YuvSourceChannels.Rgb | YuvSourceChannels.Bgr => false
  | YuvSourceChannels.Rgba | YuvSourceChannels.Bgra => true

/-- `YuvSourceChannels::get_r_channel_offset` of src/yuv_support.rs. -/
def YuvSourceChannels.get_r_channel_offset : YuvSourceChannels → Nat
  | YuvSourceChannels.Rgb => 0
  | YuvSourceChannels.Rgba => 0
  | YuvSourceChannels.Bgra => 2
  | YuvSourceChannels.Bgr => 2

/-- `YuvSourceChannels::get_g_channel_offset` of src/yuv_support.rs. -/
def YuvSourceChannels.get_g_channel_offset : YuvSourceChannels → Nat
  | _ => 1

/-- `YuvSourceChannels::get_b_channel_offset` of src/yuv_support.rs. -/
def YuvSourceChannels.get_b_channel_offset : YuvSourceChannels → Nat
  | YuvSourceChannels.Rgb => 2
  | YuvSourceChannels.Rgba => 2
  | YuvSourceChannels.Bgra => 0
  | YuvSourceChannels.Bgr => 0

/-- `YuvSourceChannels::get_a_channel_offset` of src/yuv_support.rs. -/
def YuvSourceChannels.get_a_channel_offset : YuvSourceChannels → Nat
  | YuvSourceChannels.Rgb | YuvSourceChannels.Bgr => 0
  | YuvSourceChannels.Rgba | YuvSourceChannels.Bgra => 3

/-- `Yuy2Description` of src/yuv_support.rs. -/
inductive Yuy2Description where
  | YUYV
  | UYVY
  | YVYU
  | VYUY
deriving DecidableEq

/-- `Yuy2Description::get_u_position` of src/yuv_support.rs. -/
def Yuy2Description.get_u_position : Yuy2Description → Nat
  | Yuy2Description.YUYV => 1
  | Yuy2Description.UYVY => 0
  | Yuy2Description.YVYU => 3
  | Yuy2Description.VYUY => 2

/-- `Yuy2Description::get_v_position` of src/yuv_support.rs. -/
def Yuy2Description.get_v_position : Yuy2Description → Nat
  | Yuy2Description.YUYV => 3
  | Yuy2Description.UYVY => 2
  | Yuy2Description.YVYU => 1
  | Yuy2Description.VYUY => 0

/-- `Yuy2Description::get_first_y_position` of src/yuv_support.rs. -/
def Yuy2Description.get_first_y_position : Yuy2Description → Nat
  | Yuy2Description.YUYV => 0
  | Yuy2Description.UYVY => 1
  | Yuy2Description.YVYU => 0
  | Yuy2Description.VYUY => 1

/-- `Yuy2Description::get_second_y_position` of src/yuv_support.rs. -/
def Yuy2Description.get_second_y_position : Yuy2Description → Nat
  | Yuy2Description.YUYV => 2
  | Yuy2Description.UYVY => 3
  | Yuy2Description.YVYU => 2
  | Yuy2Description.VYUY => 3

/-- The luma expression of the forward row kernel of src/rgba_to_nv.rs
(lines 189-194 and 217-224): fixed-point transform at `PRECISION = 8`,
rounding bias pre-folded into `bias_y`, arithmetic shift right, clamp. -/
def forward_pixel_y (t : CbCrForwardTransform Int) (bias_y i_bias_y i_cap_y r g b : Int) : Int :=
  rust_clamp ((r * t.yr + g * t.yg + b * t.yb + bias_y) / 256) i_bias_y i_cap_y

/-- The Cb expression of the forward row kernel of src/rgba_to_nv.rs
(lines 219-229). -/
def forward_pixel_cb (t : CbCrForwardTransform Int) (bias_uv i_bias_y i_cap_uv r g b : Int) : Int :=
  rust_clamp ((r * t.cb_r + g * t.cb_g + b * t.cb_b + bias_uv) / 256) i_bias_y i_cap_uv

/-- The Cr expression of the forward row kernel of src/rgba_to_nv.rs
(lines 221-231). -/
def forward_pixel_cr (t : CbCrForwardTransform Int) (bias_uv i_bias_y i_cap_uv r g b : Int) : Int :=
  rust_clamp ((r * t.cr_r + g * t.cr_g + b * t.cr_b + bias_uv) / 256) i_bias_y i_cap_uv

/-- The per-pixel body of the inverse row kernel of src/yuv_nv_to_rgba.rs
(lines 232-248): `PRECISION = 6`, `ROUNDING_CONST = 32`, `(v >> 6).min(255).max(0)`.
Returns `(r, g, b)`. -/
def inverse_pixel (t : CbCrInverseTransform Int) (bias_y bias_uv y_raw cb_raw cr_raw : Int) :
    Int × Int × Int :=
  let y_value := (y_raw - bias_y) * t.y_coef
  let cb_value := cb_raw - bias_uv
  let cr_value := cr_raw - bias_uv
  let r := max (min ((y_value + t.cr_coef * cr_value + 32) / 64) 255) 0
  let b := max (min ((y_value + t.cb_coef * cb_value + 32) / 64) 255) 0
  let g := max (min ((y_value - t.g_coeff_1 * cr_value - t.g_coeff_2 * cb_value + 32) / 64) 255) 0
  (r, g, b)

/-- The body of the scalar column loop of `rgbx_to_nv` (src/rgba_to_nv.rs
lines 158-236), for one iteration at column `x` (one pixel at 4:4:4, a pixel
pair at 4:2:2/4:2:0).  Writes into `y_plane` and `uv_plane`. -/
def rgbx_to_nv_pair (source_channels : YuvSourceChannels) (order : YuvNVOrder)
    (sampling : YuvChromaSample) (t : CbCrForwardTransform Int)
    (bias_y bias_uv i_bias_y i_cap_y i_cap_uv : Int)
    (rgba : List Nat) (rgba_offset width : Nat) (compute_uv_row : Bool)
    (x y_offset uv_offset ux : Nat) (y_plane uv_plane : List Nat) :
    List Nat × List Nat :=
  let channels := source_channels.get_channels_count
  let px := x * channels
  let rgba_shift := rgba_offset + px
  let r0 : Int := rgba.getD (rgba_shift + source_channels.get_r_channel_offset) 0
  let g0 : Int := rgba.getD (rgba_shift + source_channels.get_g_channel_offset) 0
  let b0 : Int := rgba.getD (rgba_shift + source_channels.get_b_channel_offset) 0
  let next : Int × Int × Int × List Nat :=
    match sampling with
    | YuvChromaSample.YUV420 | YuvChromaSample.YUV422 =>
      let next_x := x + 1
      if next_x < width then
        let next_px := next_x * channels
        let rgba_shift2 := rgba_offset + next_px
        let r1 : Int := rgba.getD (rgba_shift2 + source_channels.get_r_channel_offset) 0
        let g1 : Int := rgba.getD (rgba_shift2 + source_channels.get_g_channel_offset) 0
        let b1 : Int := rgba.getD (rgba_shift2 + source_channels.get_b_channel_offset) 0
        let y_1 := forward_pixel_y t bias_y i_bias_y i_cap_y r1 g1 b1
        (r1, g1, b1, y_plane.set (y_offset + next_x) ((y_1 % 256).toNat))
      else (r0, g0, b0, y_plane)
    | YuvChromaSample.YUV444 => (r0, g0, b0, y_plane)
  let r1 := next.1
  let g1 := next.2.1
  let b1 := next.2.2.1
  let y_plane := next.2.2.2
  if compute_uv_row then
    let r := if sampling = YuvChromaSample.YUV444 then r0 else (r0 + r1 + 1) / 2
    let g := if sampling = YuvChromaSample.YUV444 then g0 else (g0 + g1 + 1) / 2
    let b := if sampling = YuvChromaSample.YUV444 then b0 else (b0 + b1 + 1) / 2
    let y_0 := forward_pixel_y t bias_y i_bias_y i_cap_y r0 g0 b0
    let cb := forward_pixel_cb t bias_uv i_bias_y i_cap_uv r g b
    let cr := forward_pixel_cr t bias_uv i_bias_y i_cap_uv r g b
    let y_plane := y_plane.set (y_offset + x) ((y_0 % 256).toNat)
    let uv_pos := uv_offset + ux
    let uv_plane := uv_plane.set (uv_pos + order.get_u_position) ((cb % 256).toNat)
    let uv_plane := uv_plane.set (uv_pos + order.get_v_position) ((cr % 256).toNat)
    (y_plane, uv_plane)
  else (y_plane, uv_plane)

/-- The scalar column loop of `rgbx_to_nv` (`for x in (cx..width).step_by(iterator_step)`),
as a recursion on the number of remaining iterations. -/
def rgbx_to_nv_cols (source_channels : YuvSourceChannels) (order : YuvNVOrder)
    (sampling : YuvChromaSample) (t : CbCrForwardTransform Int)
    (bias_y bias_uv i_bias_y i_cap_y i_cap_uv : Int)
    (rgba : List Nat) (rgba_offset width : Nat) (compute_uv_row : Bool)
    (iters x y_offset uv_offset ux : Nat) (y_plane uv_plane : List Nat) :
    List Nat × List Nat :=
  match iters with
  | 0 => (y_plane, uv_plane)
  | n + 1 =>
    let planes := rgbx_to_nv_pair source_channels order sampling t bias_y bias_uv i_bias_y
      i_cap_y i_cap_uv rgba rgba_offset width compute_uv_row x y_offset uv_offset ux
      y_plane uv_plane
    rgbx_to_nv_cols source_channels order sampling t bias_y bias_uv i_bias_y i_cap_y i_cap_uv
      rgba rgba_offset width compute_uv_row n (x + sampling.iterator_step) y_offset uv_offset
      (ux + 2) planes.1 planes.2

/-- The row loop of `rgbx_to_nv` (src/rgba_to_nv.rs lines 88-250). -/
def rgbx_to_nv_rows (source_channels : YuvSourceChannels) (order : YuvNVOrder)
    (sampling : YuvChromaSample) (t : CbCrForwardTransform Int)
    (bias_y bias_uv i_bias_y i_cap_y i_cap_uv : Int)
    (rgba : List Nat) (y_stride uv_stride rgba_stride width : Nat)
    (y rows y_offset uv_offset rgba_offset : Nat) (y_plane uv_plane : List Nat) :
    List Nat × List Nat :=
  match rows with
  | 0 => (y_plane, uv_plane)
  | n + 1 =>
    let compute_uv_row : Bool := (sampling == YuvChromaSample.YUV444)
      || (sampling == YuvChromaSample.YUV422) || (y % 2 == 0)
    let iters := (width + sampling.iterator_step - 1) / sampling.iterator_step
    let planes := rgbx_to_nv_cols source_channels order sampling t bias_y bias_uv i_bias_y
      i_cap_y i_cap_uv rgba rgba_offset width compute_uv_row iters 0 y_offset uv_offset 0
      y_plane uv_plane
    let uv_offset' :=
      match sampling with
      | YuvChromaSample.YUV420 => if y % 2 = 1 then uv_offset + uv_stride else uv_offset
      | YuvChromaSample.YUV444 | YuvChromaSample.YUV422 => uv_offset + uv_stride
    rgbx_to_nv_rows source_channels order sampling t bias_y bias_uv i_bias_y i_cap_y i_cap_uv
      rgba y_stride uv_stride rgba_stride width (y + 1) n (y_offset + y_stride) uv_offset'
      (rgba_offset + rgba_stride) planes.1 planes.2

/-- `rgbx_to_nv` of src/rgba_to_nv.rs: the generic forward RGB-family →
bi-planar YUV conversion.  Note that the Rust function performs no buffer
length validation whatsoever (it returns `()` and accesses the buffers with
`get_unchecked`); accordingly the model is total and an out-of-range write
is dropped by `List.set`. -/
def rgbx_to_nv (source_channels : YuvSourceChannels) (order : YuvNVOrder)
    (sampling : YuvChromaSample)
    (y_plane : List Nat) (y_stride : Nat) (uv_plane : List Nat) (uv_stride : Nat)
    (rgba : List Nat) (rgba_stride : Nat) (width height : Nat)
    (range : YuvRange) (matrix : YuvStandardMatrix) : List Nat × List Nat :=
  let range := get_yuv_range 8 range
  let kr_kb := matrix.get_kr_kb
  let max_range_p8 : Nat := 2 ^ 8 - 1
  let transform_precise := get_forward_transform max_range_p8 range.range_y range.range_uv
    kr_kb.kr kr_kb.kb
  let transform := transform_precise.to_integers 8
  let bias_y : Int := (range.bias_y : Int) * 2 ^ 8 + 2 ^ 7
  let bias_uv : Int := (range.bias_uv : Int) * 2 ^ 8 + 2 ^ 7
  let i_bias_y : Int := (range.bias_y : Int)
  let i_cap_y : Int := (range.range_y : Int) + i_bias_y
  let i_cap_uv : Int := i_bias_y + (range.range_uv : Int)
  rgbx_to_nv_rows source_channels order sampling transform bias_y bias_uv i_bias_y i_cap_y
    i_cap_uv rgba y_stride uv_stride rgba_stride width 0 height 0 0 0 y_plane uv_plane

/-- The interleaved-pixel store of the inverse kernel (src/yuv_nv_to_rgba.rs
lines 250-260): write B, G, R (and alpha = 255 when present) at the pixel's
channel offsets. -/
def yuv_nv12_to_rgbx_px (dst_chans : YuvSourceChannels) (bgra : List Nat)
    (dst_shift : Nat) (r g b : Int) : List Nat :=
  let bgra := bgra.set (dst_shift + dst_chans.get_b_channel_offset) ((b % 256).toNat)
  let bgra := bgra.set (dst_shift + dst_chans.get_g_channel_offset) ((g % 256).toNat)
  let bgra := bgra.set (dst_shift + dst_chans.get_r_channel_offset) ((r % 256).toNat)
  if dst_chans.has_alpha then bgra.set (dst_shift + dst_chans.get_a_channel_offset) 255
  else bgra

/-- The scalar column loop of `yuv_nv12_to_rgbx` (src/yuv_nv_to_rgba.rs
lines 231-295). -/
def yuv_nv12_to_rgbx_cols (order : YuvNVOrder) (dst_chans : YuvSourceChannels)
    (sampling : YuvChromaSample) (t : CbCrInverseTransform Int) (bias_y bias_uv : Int)
    (y_plane uv_plane : List Nat) (y_offset uv_offset dst_offset width : Nat)
    (iters x ux : Nat) (bgra : List Nat) : List Nat :=
  match iters with
  | 0 => bgra
  | n + 1 =>
    let channels := dst_chans.get_channels_count
    let y_raw : Int := y_plane.getD (y_offset + x) 0
    let cb_pos := uv_offset + ux
    let cb_raw : Int := uv_plane.getD (cb_pos + order.get_u_position) 0
    let cr_raw : Int := uv_plane.getD (cb_pos + order.get_v_position) 0
    let rgb0 := inverse_pixel t bias_y bias_uv y_raw cb_raw cr_raw
    let bgra := yuv_nv12_to_rgbx_px dst_chans bgra (dst_offset + x * channels)
      rgb0.1 rgb0.2.1 rgb0.2.2
    let bgra :=
      match sampling with
      | YuvChromaSample.YUV422 | YuvChromaSample.YUV420 =>
        if x + 1 < width then
          let y2 : Int := y_plane.getD (y_offset + x + 1) 0
          let rgb1 := inverse_pixel t bias_y bias_uv y2 cb_raw cr_raw
          yuv_nv12_to_rgbx_px dst_chans bgra (dst_offset + (x + 1) * channels)
            rgb1.1 rgb1.2.1 rgb1.2.2
        else bgra
      | YuvChromaSample.YUV444 => bgra
    yuv_nv12_to_rgbx_cols order dst_chans sampling t bias_y bias_uv y_plane uv_plane
      y_offset uv_offset dst_offset width n (x + sampling.iterator_step) (ux + 2) bgra

/-- The row iteration of `yuv_nv12_to_rgbx` (`chunks_exact_mut(bgra_stride)`:
one chunk per `bgra_stride` bytes, i.e. `bgra.length / bgra_stride` rows;
the declared image height is ignored by the Rust source). -/
def yuv_nv12_to_rgbx_rows (order : YuvNVOrder) (dst_chans : YuvSourceChannels)
    (sampling : YuvChromaSample) (t : CbCrInverseTransform Int) (bias_y bias_uv : Int)
    (y_plane uv_plane : List Nat) (y_stride uv_stride bgra_stride width : Nat)
    (y rows : Nat) (bgra : List Nat) : List Nat :=
  match rows with
  | 0 => bgra
  | n + 1 =>
    let y_offset := y * y_stride
    let uv_offset := (if sampling = YuvChromaSample.YUV420 then y / 2 else y) * uv_stride
    let iters := (width + sampling.iterator_step - 1) / sampling.iterator_step
    let bgra := yuv_nv12_to_rgbx_cols order dst_chans sampling t bias_y bias_uv y_plane
      uv_plane y_offset uv_offset (y * bgra_stride) width iters 0 0 bgra
    yuv_nv12_to_rgbx_rows order dst_chans sampling t bias_y bias_uv y_plane uv_plane
      y_stride uv_stride bgra_stride width (y + 1) n bgra

/-- `yuv_nv12_to_rgbx` of src/yuv_nv_to_rgba.rs: generic bi-planar YUV →
RGB-family conversion.  The Rust function diverges inside
`get_inverse_transform` (before any pixel is written) when the colorimetry
is degenerate; the model returns `none` in that case. -/
def yuv_nv12_to_rgbx (order : YuvNVOrder) (dst_chans : YuvSourceChannels)
    (sampling : YuvChromaSample)
    (y_plane : List Nat) (y_stride : Nat) (uv_plane : List Nat) (uv_stride : Nat)
    (bgra : List Nat) (bgra_stride : Nat) (width _height : Nat)
    (range : YuvRange) (matrix : YuvStandardMatrix) : Option (List Nat) :=
  let range := get_yuv_range 8 range
  let kr_kb := matrix.get_kr_kb
  match get_inverse_transform 255 range.range_y range.range_uv kr_kb.kr kr_kb.kb with
  | none => none
  | some transform_f =>
    let inverse_transform := transform_f.to_integers 6
    let bias_y : Int := (range.bias_y : Int)
    let bias_uv : Int := (range.bias_uv : Int)
    some (yuv_nv12_to_rgbx_rows order dst_chans sampling inverse_transform bias_y bias_uv
      y_plane uv_plane y_stride uv_stride bgra_stride width 0 (bgra.length / bgra_stride) bgra)

/-- The three planes of a planar YUV image (`y_plane`/`u_plane`/`v_plane`
output slices of src/yuy2_to_yuv.rs). -/
structure PlanarPlanes where
  y_plane : List Nat
  u_plane : List Nat
  v_plane : List Nat
deriving DecidableEq

/-- The chroma index increment of the packed-YUV loops
(`match chroma_subsampling { YUV420 | YUV422 => 1, YUV444 => 2 }`). -/
def YuvChromaSample.uv_step : YuvChromaSample → Nat
  | YuvChromaSample.YUV420 | YuvChromaSample.YUV422 => 1
  | YuvChromaSample.YUV444 => 2

/-- The complete-pair loop of `yuv_to_yuy2_impl` (src/yuv_to_yuy2.rs lines
162-198): for each pair, read (possibly box-averaged at 4:4:4) chroma and two
lumas and store the 4-byte packed group. -/
def yuv_to_yuy2_pairs (sampling : YuvChromaSample) (yuy2_target : Yuy2Description)
    (y_plane u_plane v_plane : List Nat) (y_offset u_offset v_offset yuy_offset : Nat)
    (pairs x uv_x cx : Nat) (yuy2_store : List Nat) : List Nat :=
  match pairs with
  | 0 => yuy2_store
  | n + 1 =>
    let u_pos := u_offset + uv_x
    let v_pos := v_offset + uv_x
    let y_pos := y_offset + cx
    let u_value : Nat :=
      if sampling = YuvChromaSample.YUV444 then
        (u_plane.getD u_pos 0 + u_plane.getD (u_pos + 1) 0 + 1) / 2
      else u_plane.getD u_pos 0
    let v_value : Nat :=
      if sampling = YuvChromaSample.YUV444 then
        (v_plane.getD v_pos 0 + v_plane.getD (v_pos + 1) 0 + 1) / 2
      else v_plane.getD v_pos 0
    let first_y_value := y_plane.getD y_pos 0
    let second_y_value := y_plane.getD (y_pos + 1) 0
    let dst_offset := yuy_offset + x * 4
    let s := yuy2_store.set (dst_offset + yuy2_target.get_first_y_position) first_y_value
    let s := s.set (dst_offset + yuy2_target.get_u_position) u_value
    let s := s.set (dst_offset + yuy2_target.get_second_y_position) second_y_value
    let s := s.set (dst_offset + yuy2_target.get_v_position) v_value
    yuv_to_yuy2_pairs sampling yuy2_target y_plane u_plane v_plane y_offset u_offset
      v_offset yuy_offset n (x + 1) (uv_x + sampling.uv_step) (cx + 2) s

/-- One row of `yuv_to_yuy2_impl`: the pair loop plus the odd-width tail
(src/yuv_to_yuy2.rs lines 200-216: first luma and the current chroma are
stored, the second luma slot receives 0). -/
def yuv_to_yuy2_row (sampling : YuvChromaSample) (yuy2_target : Yuy2Description)
    (y_plane u_plane v_plane : List Nat) (y_offset u_offset v_offset yuy_offset width : Nat)
    (yuy2_store : List Nat) : List Nat :=
  let s := yuv_to_yuy2_pairs sampling yuy2_target y_plane u_plane v_plane y_offset u_offset
    v_offset yuy_offset (width / 2) 0 0 0 yuy2_store
  if width % 2 = 1 then
    let uv_x := (width / 2) * sampling.uv_step
    let cx := width / 2 * 2
    let u_value := u_plane.getD (u_offset + uv_x) 0
    let v_value := v_plane.getD (v_offset + uv_x) 0
    let first_y_value := y_plane.getD (y_offset + cx) 0
    let dst_offset := yuy_offset + (width - 1) / 2 * 4
    let s := s.set (dst_offset + yuy2_target.get_first_y_position) first_y_value
    let s := s.set (dst_offset + yuy2_target.get_u_position) u_value
    let s := s.set (dst_offset + yuy2_target.get_second_y_position) 0
    s.set (dst_offset + yuy2_target.get_v_position) v_value
  else s

/-- The row iteration of `yuv_to_yuy2_impl` (src/yuv_to_yuy2.rs lines
88-217): one destination chunk of `yuy2_stride` bytes per row, chroma rows
shared between luma row pairs at 4:2:0. -/
def yuv_to_yuy2_rows (sampling : YuvChromaSample) (yuy2_target : Yuy2Description)
    (y_plane u_plane v_plane : List Nat) (y_stride u_stride v_stride yuy2_stride width : Nat)
    (y rows : Nat) (yuy2_store : List Nat) : List Nat :=
  match rows with
  | 0 => yuy2_store
  | n + 1 =>
    let y_offset := y * y_stride
    let u_offset := (if sampling = YuvChromaSample.YUV420 then y / 2 else y) * u_stride
    let v_offset := (if sampling = YuvChromaSample.YUV420 then y / 2 else y) * v_stride
    let s := yuv_to_yuy2_row sampling yuy2_target y_plane u_plane v_plane y_offset u_offset
      v_offset (y * yuy2_stride) width yuy2_store
    yuv_to_yuy2_rows sampling yuy2_target y_plane u_plane v_plane y_stride u_stride v_stride
      yuy2_stride width (y + 1) n s

/-- `yuv_to_yuy2_impl` of src/yuv_to_yuy2.rs: planar YUV → packed YUY2-family.
The chunked row iteration visits `yuy2_store.len() / yuy2_stride` chunks
(the height argument of the Rust function is unused, `_: u32`). -/
def yuv_to_yuy2_impl (sampling : YuvChromaSample) (yuy2_target : Yuy2Description)
    (y_plane : List Nat) (y_stride : Nat) (u_plane : List Nat) (u_stride : Nat)
    (v_plane : List Nat) (v_stride : Nat) (yuy2_store : List Nat) (yuy2_stride : Nat)
    (width _height : Nat) : List Nat :=
  yuv_to_yuy2_rows sampling yuy2_target y_plane u_plane v_plane y_stride u_stride v_stride
    yuy2_stride width 0 (yuy2_store.length / yuy2_stride) yuy2_store

/-- The body of one iteration of the complete-pair loop of
`yuy2_to_yuv_impl` (src/yuy2_to_yuv.rs lines 126-158): read the 4-byte
packed group, store two lumas and the chroma sample (duplicated to two
columns at 4:4:4). -/
def yuy2_to_yuv_pair_step (sampling : YuvChromaSample) (yuy2_target : Yuy2Description)
    (yuy2_store : List Nat) (y_offset u_offset v_offset yuy_offset : Nat)
    (x uv_x cx : Nat) (P : PlanarPlanes) : PlanarPlanes :=
  let u_pos := u_offset + uv_x
  let v_pos := v_offset + uv_x
  let y_pos := y_offset + cx
  let yuy2_offset := yuy_offset + x * 4
  let first_y_position := yuy2_store.getD (yuy2_offset + yuy2_target.get_first_y_position) 0
  let second_y_position := yuy2_store.getD (yuy2_offset + yuy2_target.get_second_y_position) 0
  let u_value := yuy2_store.getD (yuy2_offset + yuy2_target.get_u_position) 0
  let v_value := yuy2_store.getD (yuy2_offset + yuy2_target.get_v_position) 0
  let yP := (P.y_plane.set y_pos first_y_position).set (y_pos + 1) second_y_position
  let uP := P.u_plane.set u_pos u_value
  let vP := P.v_plane.set v_pos v_value
  let uP := if sampling = YuvChromaSample.YUV444 then uP.set (u_pos + 1) u_value else uP
  let vP := if sampling = YuvChromaSample.YUV444 then vP.set (v_pos + 1) v_value else vP
  { y_plane := yP, u_plane := uP, v_plane := vP }

/-- The complete-pair loop of `yuy2_to_yuv_impl` (src/yuy2_to_yuv.rs lines
126-159). -/
def yuy2_to_yuv_pairs (sampling : YuvChromaSample) (yuy2_target : Yuy2Description)
    (yuy2_store : List Nat) (y_offset u_offset v_offset yuy_offset : Nat)
    (pairs x uv_x cx : Nat) (P : PlanarPlanes) : PlanarPlanes :=
  match pairs with
  | 0 => P
  | n + 1 =>
    yuy2_to_yuv_pairs sampling yuy2_target yuy2_store y_offset u_offset v_offset yuy_offset
      n (x + 1) (uv_x + sampling.uv_step) (cx + 2)
      (yuy2_to_yuv_pair_step sampling yuy2_target yuy2_store y_offset u_offset v_offset
        yuy_offset x uv_x cx P)

/-- One row of `yuy2_to_yuv_impl`: the pair loop plus the odd-width tail
(src/yuy2_to_yuv.rs lines 161-181). -/
def yuy2_to_yuv_row (sampling : YuvChromaSample) (yuy2_target : Yuy2Description)
    (yuy2_store : List Nat) (y_offset u_offset v_offset yuy_offset width : Nat)
    (P : PlanarPlanes) : PlanarPlanes :=
  let P := yuy2_to_yuv_pairs sampling yuy2_target yuy2_store y_offset u_offset v_offset
    yuy_offset (width / 2) 0 0 0 P
  if width % 2 = 1 then
    let uv_x := (width / 2) * sampling.uv_step
    let cx := width / 2 * 2
    let yuy2_offset := yuy_offset + (width - 1) / 2 * 4
    let first_y_position := yuy2_store.getD (yuy2_offset + yuy2_target.get_first_y_position) 0
    let u_value := yuy2_store.getD (yuy2_offset + yuy2_target.get_u_position) 0
    let v_value := yuy2_store.getD (yuy2_offset + yuy2_target.get_v_position) 0
    { y_plane := P.y_plane.set (y_offset + cx) first_y_position
      u_plane := P.u_plane.set (u_offset + uv_x) u_value
      v_plane := P.v_plane.set (v_offset + uv_x) v_value }
  else P

/-- The row loop of `yuy2_to_yuv_impl` (src/yuy2_to_yuv.rs lines 64-197):
per-row offsets are accumulated, the chroma offsets advancing only after odd
rows at 4:2:0. -/
def yuy2_to_yuv_rows (sampling : YuvChromaSample) (yuy2_target : Yuy2Description)
    (yuy2_store : List Nat) (y_stride u_stride v_stride yuy2_stride width : Nat)
    (y rows y_offset u_offset v_offset yuy_offset : Nat) (P : PlanarPlanes) : PlanarPlanes :=
  match rows with
  | 0 => P
  | n + 1 =>
    let P := yuy2_to_yuv_row sampling yuy2_target yuy2_store y_offset u_offset v_offset
      yuy_offset width P
    let u_offset' :=
      match sampling with
      | YuvChromaSample.YUV420 => if y % 2 = 1 then u_offset + u_stride else u_offset
      | YuvChromaSample.YUV444 | YuvChromaSample.YUV422 => u_offset + u_stride
    let v_offset' :=
      match sampling with
      | YuvChromaSample.YUV420 => if y % 2 = 1 then v_offset + v_stride else v_offset
      | YuvChromaSample.YUV444 | YuvChromaSample.YUV422 => v_offset + v_stride
    yuy2_to_yuv_rows sampling yuy2_target yuy2_store y_stride u_stride v_stride yuy2_stride
      width (y + 1) n (y_offset + y_stride) u_offset' v_offset' (yuy_offset + yuy2_stride) P

/-- `yuy2_to_yuv_impl` of src/yuy2_to_yuv.rs: packed YUY2-family → planar YUV. -/
def yuy2_to_yuv_impl (sampling : YuvChromaSample) (yuy2_target : Yuy2Description)
    (y_plane : List Nat) (y_stride : Nat) (u_plane : List Nat) (u_stride : Nat)
    (v_plane : List Nat) (v_stride : Nat) (yuy2_store : List Nat) (yuy2_stride : Nat)
    (width height : Nat) : PlanarPlanes :=
  yuy2_to_yuv_rows sampling yuy2_target yuy2_store y_stride u_stride v_stride yuy2_stride
    width 0 height 0 0 0 0
    { y_plane := y_plane, u_plane := u_plane, v_plane := v_plane }

/-- The horizontal box-filter of the specification's §4.4:
round-half-up average `(r0 + r1 + 1) >> 1` of a pair of channel values. -/
def chroma_avg (a b : Int) : Int := (a + b + 1) / 2

/-- The integer forward transform the 8-bit kernels derive for
BT.601 + Full range (`get_forward_transform` quantized at `PRECISION = 8`),
with the excursions produced by `get_yuv_range 8 Full`. -/
def forward_transform_bt601_full : CbCrForwardTransform Int :=
  (get_forward_transform (2 ^ 8 - 1) (get_yuv_range 8 YuvRange.Full).range_y
    (get_yuv_range 8 YuvRange.Full).range_uv (YuvStandardMatrix.Bt601.get_kr_kb).kr
    (YuvStandardMatrix.Bt601.get_kr_kb).kb).to_integers 8

/-- The integer inverse transform `yuv_nv12_to_rgbx` derives for
BT.601 + Full range (`get_inverse_transform` quantized at `PRECISION = 6`). -/
def inverse_transform_bt601_full : CbCrInverseTransform Int :=
  match get_inverse_transform 255 (get_yuv_range 8 YuvRange.Full).range_y
    (get_yuv_range 8 YuvRange.Full).range_uv (YuvStandardMatrix.Bt601.get_kr_kb).kr
    (YuvStandardMatrix.Bt601.get_kr_kb).kb with
  | some t => t.to_integers 6
  | none => { y_coef := 0, cr_coef := 0, cb_coef := 0, g_coeff_1 := 0, g_coeff_2 := 0 }

/-- One pixel through the forward 4:4:4 row kernel (BT.601, Full range, the
biases exactly as `rgbx_to_nv` folds them) followed by the inverse row
kernel of `yuv_nv12_to_rgbx` on the produced (Y, Cb, Cr). -/
def roundtrip_444_bt601_full (r g b : Int) : Int × Int × Int :=
  let rim := get_yuv_range 8 YuvRange.Full
  let bias_y : Int := (rim.bias_y : Int) * 2 ^ 8 + 2 ^ 7
  let bias_uv : Int := (rim.bias_uv : Int) * 2 ^ 8 + 2 ^ 7
  let i_bias_y : Int := (rim.bias_y : Int)
  let i_cap_y : Int := (rim.range_y : Int) + i_bias_y
  let i_cap_uv : Int := i_bias_y + (rim.range_uv : Int)
  let yv := forward_pixel_y forward_transform_bt601_full bias_y i_bias_y i_cap_y r g b
  let cb := forward_pixel_cb forward_transform_bt601_full bias_uv i_bias_y i_cap_uv r g b
  let cr := forward_pixel_cr forward_transform_bt601_full bias_uv i_bias_y i_cap_uv r g b
  inverse_pixel inverse_transform_bt601_full (rim.bias_y : Int) (rim.bias_uv : Int) yv cb cr

theorem getD_set_ne (l : List Nat) (i j a : Nat) (h : i ≠ j) :
    (l.set i a).getD j 0 = l.getD j 0 := by
  induction l generalizing i j with
  | nil => rfl
  | cons x xs ih =>
    cases i with
    | zero =>
      cases j with
      | zero => exact absurd rfl h
      | succ j => simp [List.set]
    | succ i =>
      cases j with
      | zero => simp [List.set]
      | succ j =>
        simp only [List.set, List.getD_cons_succ]
        exact ih i j (fun hc => h (by rw [hc]))

theorem getD_set_self (l : List Nat) (i a : Nat) (h : i < l.length) :
    (l.set i a).getD i 0 = a := by
  induction l generalizing i with
  | nil => simp at h
  | cons x xs ih =>
    cases i with
    | zero => simp [List.set]
    | succ i =>
      simp only [List.set, List.getD_cons_succ]
      exact ih i (by simpa using h)

theorem rust_clamp_bounds (x lo hi : Int) (h : lo ≤ hi) :
    lo ≤ rust_clamp x lo hi ∧ rust_clamp x lo hi ≤ hi := by
  unfold rust_clamp
  split_ifs <;> omega

theorem forward_transform_bt601_full_eq :
    forward_transform_bt601_full =
      { yr := 77, yg := 150, yb := 29, cb_r := -43, cb_g := -85, cb_b := 128,
        cr_r := 128, cr_g := -107, cr_b := -21 } := by
  unfold forward_transform_bt601_full get_forward_transform CbCrForwardTransform.to_integers
  norm_num [YuvStandardMatrix.get_kr_kb, get_yuv_range, rustRound,
    CbCrForwardTransform.mk.injEq]

theorem inverse_transform_bt601_full_eq :
    inverse_transform_bt601_full =
      { y_coef := 64, cr_coef := 90, cb_coef := 113, g_coeff_1 := 46, g_coeff_2 := 22 } := by
  unfold inverse_transform_bt601_full get_inverse_transform CbCrInverseTransform.to_integers
  norm_num [YuvStandardMatrix.get_kr_kb, get_yuv_range, rustRound,
    CbCrInverseTransform.mk.injEq]

/-- C4: for every kr, kb with kg = 1 − kr − kb ≠ 0 and every excursion triple,
`get_forward_transform` returns exactly the spec's nine forward coefficient
formulas and `get_inverse_transform` returns exactly the spec's five inverse
coefficient formulas (float arithmetic modelled exactly over ℚ). -/
theorem c4_transform_formulas (range_rgba range_y range_uv : Nat) (kr kb : ℚ)
    (hkg : 1 - kr - kb ≠ 0) :
    get_forward_transform range_rgba range_y range_uv kr kb =
      spec_forward_transform range_rgba range_y range_uv kr kb ∧
    get_inverse_transform range_rgba range_y range_uv kr kb =
      some (spec_inverse_transform range_rgba range_y range_uv kr kb) := by
  constructor
  · simp only [get_forward_transform, spec_forward_transform, CbCrForwardTransform.mk.injEq]
    refine ⟨?_, ?_, ?_, ?_, ?_, ?_, ?_, ?_, ?_⟩ <;> ring
  · simp only [get_inverse_transform, spec_inverse_transform, if_neg hkg,
      Option.some.injEq, CbCrInverseTransform.mk.injEq]
    refine ⟨?_, ?_, ?_, ?_, ?_⟩ <;> ring

/-- Witness for C4 at the BT.601 primaries and 8-bit full-range excursions. -/
theorem c4_transform_formulas_witness :
    ((1 : ℚ) - 0.299 - 0.114 ≠ 0) ∧
    (get_forward_transform 255 255 255 0.299 0.114 =
        spec_forward_transform 255 255 255 0.299 0.114 ∧
      get_inverse_transform 255 255 255 0.299 0.114 =
        some (spec_inverse_transform 255 255 255 0.299 0.114)) :=
  ⟨by norm_num, c4_transform_formulas 255 255 255 0.299 0.114 (by norm_num)⟩

/-- C5: for every bit depth ≥ 8, `get_yuv_range` returns for TV range
bias_y = 16·2^(depth−8), range_y = 219·2^(depth−8), bias_uv = 2^(depth−1),
range_uv = 224·2^(depth−8), and for Full range bias_y = 0,
bias_uv = 2^(depth−1), range_y = range_uv = 2^depth − 1. -/
theorem c5_range_mapper (depth : Nat) (_h : 8 ≤ depth) :
    get_yuv_range depth YuvRange.TV =
      { bias_y := 16 * 2 ^ (depth - 8), bias_uv := 2 ^ (depth - 1),
        range_y := 219 * 2 ^ (depth - 8), range_uv := 224 * 2 ^ (depth - 8) } ∧
    get_yuv_range depth YuvRange.Full =
      { bias_y := 0, bias_uv := 2 ^ (depth - 1),
        range_y := 2 ^ depth - 1, range_uv := 2 ^ depth - 1 } :=
  ⟨rfl, rfl⟩

/-- Witness for C5 at depth 8: TV gives (16, 219, 128, 224) and Full gives
bias_y = 0, range_y = 255. -/
theorem c5_range_mapper_witness :
    8 ≤ 8 ∧
    get_yuv_range 8 YuvRange.TV =
      { bias_y := 16, bias_uv := 128, range_y := 219, range_uv := 224 } ∧
    get_yuv_range 8 YuvRange.Full =
      { bias_y := 0, bias_uv := 128, range_y := 255, range_uv := 255 } :=
  ⟨le_refl 8, ((c5_range_mapper 8 (le_refl 8)).1).trans (by decide),
    ((c5_range_mapper 8 (le_refl 8)).2).trans (by decide)⟩

/-- C7: for any integer transform (hence for every supported matrix), both
TV and Full range at depth 8, and all integer channel inputs, every value
the forward row kernel's fixed-point rounding-shift-clamp evaluation
produces (Y, Cb, Cr) and every value the inverse kernel produces (R, G, B)
lies in [0, 255], and the `as u8` store does not wrap it. -/
theorem c7_saturation (t : CbCrForwardTransform Int) (it : CbCrInverseTransform Int)
    (rng : YuvRange) (r g b y_raw cb_raw cr_raw : Int) :
    let range := get_yuv_range 8 rng
    let bias_y : Int := (range.bias_y : Int) * 2 ^ 8 + 2 ^ 7
    let bias_uv : Int := (range.bias_uv : Int) * 2 ^ 8 + 2 ^ 7
    let i_bias_y : Int := (range.bias_y : Int)
    let i_cap_y : Int := (range.range_y : Int) + i_bias_y
    let i_cap_uv : Int := i_bias_y + (range.range_uv : Int)
    let yv := forward_pixel_y t bias_y i_bias_y i_cap_y r g b
    let cb := forward_pixel_cb t bias_uv i_bias_y i_cap_uv r g b
    let cr := forward_pixel_cr t bias_uv i_bias_y i_cap_uv r g b
    let rgb := inverse_pixel it (range.bias_y : Int) (range.bias_uv : Int) y_raw cb_raw cr_raw
    (0 ≤ yv ∧ yv ≤ 255 ∧ yv % 256 = yv) ∧
    (0 ≤ cb ∧ cb ≤ 255 ∧ cb % 256 = cb) ∧
    (0 ≤ cr ∧ cr ≤ 255 ∧ cr % 256 = cr) ∧
    (0 ≤ rgb.1 ∧ rgb.1 ≤ 255 ∧ rgb.1 % 256 = rgb.1) ∧
    (0 ≤ rgb.2.1 ∧ rgb.2.1 ≤ 255 ∧ rgb.2.1 % 256 = rgb.2.1) ∧
    (0 ≤ rgb.2.2 ∧ rgb.2.2 ≤ 255 ∧ rgb.2.2 % 256 = rgb.2.2) := by
  cases rng <;>
    (simp only [get_yuv_range, forward_pixel_y, forward_pixel_cb, forward_pixel_cr,
      inverse_pixel, rust_clamp]
     norm_num
     split_ifs <;> omega)

/-- C2: for every 8-bit RGB pixel, the forward row kernel at 4:4:4, Full
range, BT.601 followed by the inverse row kernel on the resulting exact
(Y, Cb, Cr) reproduces each of R, G, B within 2. -/
theorem c2_roundtrip_bound (r g b : Int)
    (hr0 : 0 ≤ r) (hr1 : r ≤ 255) (hg0 : 0 ≤ g) (hg1 : g ≤ 255)
    (hb0 : 0 ≤ b) (hb1 : b ≤ 255) :
    |(roundtrip_444_bt601_full r g b).1 - r| ≤ 2 ∧
    |(roundtrip_444_bt601_full r g b).2.1 - g| ≤ 2 ∧
    |(roundtrip_444_bt601_full r g b).2.2 - b| ≤ 2 := by
  simp only [roundtrip_444_bt601_full, get_yuv_range, forward_transform_bt601_full_eq,
    inverse_transform_bt601_full_eq, forward_pixel_y, forward_pixel_cb, forward_pixel_cr,
    inverse_pixel, rust_clamp]
  norm_num [abs_le]
  split_ifs <;> omega

/-- Witness for C2 at the pure-blue pixel (0, 0, 255), where the round-trip
error on the blue channel is exactly 2. -/
theorem c2_roundtrip_bound_witness :
    ((0:Int) ≤ 0 ∧ (0:Int) ≤ 255 ∧ (0:Int) ≤ 0 ∧ (0:Int) ≤ 255 ∧
      (0:Int) ≤ 255 ∧ (255:Int) ≤ 255) ∧
    (|(roundtrip_444_bt601_full 0 0 255).1 - 0| ≤ 2 ∧
     |(roundtrip_444_bt601_full 0 0 255).2.1 - 0| ≤ 2 ∧
     |(roundtrip_444_bt601_full 0 0 255).2.2 - 255| ≤ 2) :=
  ⟨by norm_num,
    c2_roundtrip_bound 0 0 255 (by norm_num) (by norm_num) (by norm_num) (by norm_num)
      (by norm_num) (by norm_num)⟩

theorem chroma_avg_self (a : Int) : chroma_avg a a = a := by
  unfold chroma_avg
  omega

/-- C6: in the forward kernel at 4:2:2/4:2:0 with chroma computed this row,
each chroma output is the integer transform applied to the round-half-up
averages `(c0 + c1 + 1) >> 1` of the two adjacent pixels' channels
(average-then-transform); when the pair's second column does not exist
(odd width), the column is paired with itself, so the chroma uses only that
column's own values. -/
theorem c6_average_then_transform (source_channels : YuvSourceChannels)
    (order : YuvNVOrder) (sampling : YuvChromaSample) (t : CbCrForwardTransform Int)
    (bias_y bias_uv i_bias_y i_cap_y i_cap_uv : Int)
    (rgba : List Nat) (rgba_offset width x y_offset uv_offset ux : Nat)
    (y_plane uv_plane : List Nat)
    (hs : sampling ≠ YuvChromaSample.YUV444)
    (hu : uv_offset + ux + 1 < uv_plane.length) :
    let channels := source_channels.get_channels_count
    let r0 : Int := rgba.getD (rgba_offset + x * channels + source_channels.get_r_channel_offset) 0
    let g0 : Int := rgba.getD (rgba_offset + x * channels + source_channels.get_g_channel_offset) 0
    let b0 : Int := rgba.getD (rgba_offset + x * channels + source_channels.get_b_channel_offset) 0
    let r1 : Int := rgba.getD (rgba_offset + (x + 1) * channels + source_channels.get_r_channel_offset) 0
    let g1 : Int := rgba.getD (rgba_offset + (x + 1) * channels + source_channels.get_g_channel_offset) 0
    let b1 : Int := rgba.getD (rgba_offset + (x + 1) * channels + source_channels.get_b_channel_offset) 0
    let result := rgbx_to_nv_pair source_channels order sampling t bias_y bias_uv i_bias_y
      i_cap_y i_cap_uv rgba rgba_offset width true x y_offset uv_offset ux y_plane uv_plane
    if x + 1 < width then
      result.2.getD (uv_offset + ux + order.get_u_position) 0 =
        ((forward_pixel_cb t bias_uv i_bias_y i_cap_uv (chroma_avg r0 r1) (chroma_avg g0 g1)
          (chroma_avg b0 b1)) % 256).toNat ∧
      result.2.getD (uv_offset + ux + order.get_v_position) 0 =
        ((forward_pixel_cr t bias_uv i_bias_y i_cap_uv (chroma_avg r0 r1) (chroma_avg g0 g1)
          (chroma_avg b0 b1)) % 256).toNat
    else
      result.2.getD (uv_offset + ux + order.get_u_position) 0 =
        ((forward_pixel_cb t bias_uv i_bias_y i_cap_uv r0 g0 b0) % 256).toNat ∧
      result.2.getD (uv_offset + ux + order.get_v_position) 0 =
        ((forward_pixel_cr t bias_uv i_bias_y i_cap_uv r0 g0 b0) % 256).toNat := by
  by_cases hxw : x + 1 < width <;> cases sampling <;> try exact absurd rfl hs
  all_goals cases order
  all_goals simp only [rgbx_to_nv_pair, YuvNVOrder.get_u_position, YuvNVOrder.get_v_position]
  all_goals simp [hxw, chroma_avg]
  all_goals refine ⟨?_, ?_⟩
  all_goals rw [List.getElem?_set_self (by first | omega | (simp only [List.length_set]; omega))]
  all_goals have hself : ∀ a : Int, (a + a + 1) / 2 = a := fun a => by omega
  all_goals simp [hself]

/-- Witness for C6: a 2-wide RGB row under 4:2:2; both chroma bytes of the
pair equal the transform of the averaged channels. -/
theorem c6_average_then_transform_witness :
    (YuvChromaSample.YUV422 ≠ YuvChromaSample.YUV444) ∧
    (0 + 0 + 1 < ([0, 0] : List Nat).length) ∧
    (let channels := YuvSourceChannels.Rgb.get_channels_count
     let r0 : Int := ([10, 20, 30, 40, 50, 60] : List Nat).getD
       (0 + 0 * channels + YuvSourceChannels.Rgb.get_r_channel_offset) 0
     let g0 : Int := ([10, 20, 30, 40, 50, 60] : List Nat).getD
       (0 + 0 * channels + YuvSourceChannels.Rgb.get_g_channel_offset) 0
     let b0 : Int := ([10, 20, 30, 40, 50, 60] : List Nat).getD
       (0 + 0 * channels + YuvSourceChannels.Rgb.get_b_channel_offset) 0
     let r1 : Int := ([10, 20, 30, 40, 50, 60] : List Nat).getD
       (0 + (0 + 1) * channels + YuvSourceChannels.Rgb.get_r_channel_offset) 0
     let g1 : Int := ([10, 20, 30, 40, 50, 60] : List Nat).getD
       (0 + (0 + 1) * channels + YuvSourceChannels.Rgb.get_g_channel_offset) 0
     let b1 : Int := ([10, 20, 30, 40, 50, 60] : List Nat).getD
       (0 + (0 + 1) * channels + YuvSourceChannels.Rgb.get_b_channel_offset) 0
     let result := rgbx_to_nv_pair YuvSourceChannels.Rgb YuvNVOrder.UV YuvChromaSample.YUV422
       forward_transform_bt601_full 128 32896 0 255 255 [10, 20, 30, 40, 50, 60] 0 2 true
       0 0 0 0 [0, 0] [0, 0]
     if 0 + 1 < 2 then
       result.2.getD (0 + 0 + YuvNVOrder.UV.get_u_position) 0 =
         ((forward_pixel_cb forward_transform_bt601_full 32896 0 255 (chroma_avg r0 r1)
           (chroma_avg g0 g1) (chroma_avg b0 b1)) % 256).toNat ∧
       result.2.getD (0 + 0 + YuvNVOrder.UV.get_v_position) 0 =
         ((forward_pixel_cr forward_transform_bt601_full 32896 0 255 (chroma_avg r0 r1)
           (chroma_avg g0 g1) (chroma_avg b0 b1)) % 256).toNat
     else
       result.2.getD (0 + 0 + YuvNVOrder.UV.get_u_position) 0 =
         ((forward_pixel_cb forward_transform_bt601_full 32896 0 255 r0 g0 b0) % 256).toNat ∧
       result.2.getD (0 + 0 + YuvNVOrder.UV.get_v_position) 0 =
         ((forward_pixel_cr forward_transform_bt601_full 32896 0 255 r0 g0 b0) % 256).toNat) :=
  ⟨by decide, by decide,
    c6_average_then_transform YuvSourceChannels.Rgb YuvNVOrder.UV YuvChromaSample.YUV422
      forward_transform_bt601_full 128 32896 0 255 255 [10, 20, 30, 40, 50, 60] 0 2 0 0 0 0
      [0, 0] [0, 0] (by decide) (by decide)⟩

/-- C1 (code bug): on the odd rows of a 4:2:0 conversion the scalar kernel
of `rgbx_to_nv` never writes the even columns' luma — the `y_plane` write
for column `x` sits inside the `if compute_uv_row` block, which is skipped
on odd rows.  Converting an all-white 2×2 RGB image leaves the sentinel 7
at row 1, column 0, although the claimed (and elsewhere written) luma of a
white pixel is 255. -/
theorem c1_odd_row_luma_not_written :
    rgbx_to_nv YuvSourceChannels.Rgb YuvNVOrder.UV YuvChromaSample.YUV420
      [7, 7, 7, 7] 2 [0, 0] 2
      [255, 255, 255, 255, 255, 255, 255, 255, 255, 255, 255, 255] 6 2 2
      YuvRange.Full YuvStandardMatrix.Bt601 = ([255, 255, 7, 255], [128, 128]) ∧
    forward_pixel_y forward_transform_bt601_full 128 0 255 255 255 255 = 255 := by
  constructor
  · have h1 : rgbx_to_nv YuvSourceChannels.Rgb YuvNVOrder.UV YuvChromaSample.YUV420
        [7, 7, 7, 7] 2 [0, 0] 2
        [255, 255, 255, 255, 255, 255, 255, 255, 255, 255, 255, 255] 6 2 2
        YuvRange.Full YuvStandardMatrix.Bt601 =
        rgbx_to_nv_rows YuvSourceChannels.Rgb YuvNVOrder.UV YuvChromaSample.YUV420
          forward_transform_bt601_full 128 32896 0 255 255
          [255, 255, 255, 255, 255, 255, 255, 255, 255, 255, 255, 255] 2 2 6 2 0 2 0 0 0
          [7, 7, 7, 7] [0, 0] := rfl
    rw [forward_transform_bt601_full_eq] at h1
    rw [h1]
    decide
  · rw [forward_transform_bt601_full_eq]
    decide

/-- C3 (code bug): `rgbx_to_nv` performs no buffer-length validation at all
(its Rust signature returns `()`, and every access is `get_unchecked`): on a
call whose UV buffer is empty instead of the required `uv_stride × 1` bytes,
the conversion still runs and mutates the Y output buffer instead of failing
with an error before any pixel is written (in Rust the chroma store is an
out-of-bounds unchecked write; the model drops it). -/
theorem c3_no_length_validation :
    rgbx_to_nv YuvSourceChannels.Rgb YuvNVOrder.UV YuvChromaSample.YUV420
      [0, 0] 2 [] 2 [255, 255, 255, 255, 255, 255] 6 2 1
      YuvRange.Full YuvStandardMatrix.Bt601 = ([255, 255], []) ∧
    ([255, 255] : List Nat) ≠ [0, 0] := by
  constructor
  · have h1 : rgbx_to_nv YuvSourceChannels.Rgb YuvNVOrder.UV YuvChromaSample.YUV420
        [0, 0] 2 [] 2 [255, 255, 255, 255, 255, 255] 6 2 1
        YuvRange.Full YuvStandardMatrix.Bt601 =
        rgbx_to_nv_rows YuvSourceChannels.Rgb YuvNVOrder.UV YuvChromaSample.YUV420
          forward_transform_bt601_full 128 32896 0 255 255
          [255, 255, 255, 255, 255, 255] 2 2 6 2 0 1 0 0 0 [0, 0] [] := rfl
    rw [forward_transform_bt601_full_eq] at h1
    rw [h1]
    decide
  · decide

/-- C9 (code bug): with degenerate primaries kr = kb = 0.5 (kg = 0) the
inverse direction dies in `get_inverse_transform` before any pixel is
written (modelled as `none`), but the forward direction does not fail at
all: `get_forward_transform` contains no kg check, and `rgbx_to_nv`
completes the conversion and mutates its output planes. -/
theorem c9_forward_direction_does_not_fail :
    (rgbx_to_nv YuvSourceChannels.Rgb YuvNVOrder.UV YuvChromaSample.YUV420
        [0] 1 [0, 0] 2 [255, 0, 0] 3 1 1
        YuvRange.Full (YuvStandardMatrix.Custom 0.5 0.5) = ([128], [1, 255]) ∧
      ([128] : List Nat) ≠ [0]) ∧
    yuv_nv12_to_rgbx YuvNVOrder.UV YuvSourceChannels.Bgra YuvChromaSample.YUV420
      [0] 1 [0, 0] 2 [1, 2, 3, 4] 4 1 1
      YuvRange.Full (YuvStandardMatrix.Custom 0.5 0.5) = none := by
  refine ⟨⟨?_, by decide⟩, ?_⟩
  · have h1 : rgbx_to_nv YuvSourceChannels.Rgb YuvNVOrder.UV YuvChromaSample.YUV420
        [0] 1 [0, 0] 2 [255, 0, 0] 3 1 1
        YuvRange.Full (YuvStandardMatrix.Custom 0.5 0.5) =
        rgbx_to_nv_rows YuvSourceChannels.Rgb YuvNVOrder.UV YuvChromaSample.YUV420
          ((get_forward_transform (2 ^ 8 - 1) (get_yuv_range 8 YuvRange.Full).range_y
            (get_yuv_range 8 YuvRange.Full).range_uv
            ((YuvStandardMatrix.Custom 0.5 0.5).get_kr_kb).kr
            ((YuvStandardMatrix.Custom 0.5 0.5).get_kr_kb).kb).to_integers 8)
          128 32896 0 255 255 [255, 0, 0] 1 2 3 1 0 1 0 0 0 [0] [0, 0] := rfl
    have ht : (get_forward_transform (2 ^ 8 - 1) (get_yuv_range 8 YuvRange.Full).range_y
        (get_yuv_range 8 YuvRange.Full).range_uv
        ((YuvStandardMatrix.Custom 0.5 0.5).get_kr_kb).kr
        ((YuvStandardMatrix.Custom 0.5 0.5).get_kr_kb).kb).to_integers 8 =
        { yr := 128, yg := 0, yb := 128, cb_r := -128, cb_g := 0, cb_b := 128,
          cr_r := 128, cr_g := 0, cr_b := -128 } := by
      unfold get_forward_transform CbCrForwardTransform.to_integers
      norm_num [YuvStandardMatrix.get_kr_kb, get_yuv_range, rustRound,
        CbCrForwardTransform.mk.injEq]
    rw [ht] at h1
    rw [h1]
    decide
  · simp only [yuv_nv12_to_rgbx, get_inverse_transform, YuvStandardMatrix.get_kr_kb,
      get_yuv_range]
    norm_num

theorem yuy2_positions_lt (tg : Yuy2Description) :
    tg.get_first_y_position < 4 ∧ tg.get_u_position < 4 ∧
    tg.get_second_y_position < 4 ∧ tg.get_v_position < 4 := by
  cases tg <;> decide

theorem yuy2_positions_distinct (tg : Yuy2Description) :
    tg.get_first_y_position ≠ tg.get_u_position ∧
    tg.get_first_y_position ≠ tg.get_second_y_position ∧
    tg.get_first_y_position ≠ tg.get_v_position ∧
    tg.get_u_position ≠ tg.get_second_y_position ∧
    tg.get_u_position ≠ tg.get_v_position ∧
    tg.get_second_y_position ≠ tg.get_v_position := by
  cases tg <;> decide

theorem yuv_to_yuy2_pairs_length (s : YuvChromaSample) (tg : Yuy2Description)
    (yP uP vP : List Nat) (yo uo vo yoff : Nat) :
    ∀ (pairs x uvx cx : Nat) (dst : List Nat),
      (yuv_to_yuy2_pairs s tg yP uP vP yo uo vo yoff pairs x uvx cx dst).length =
        dst.length := by
  intro pairs
  induction pairs with
  | zero => intros; rfl
  | succ n ih =>
    intro x uvx cx dst
    simp only [yuv_to_yuy2_pairs]
    rw [ih]
    simp only [List.length_set]

theorem yuv_to_yuy2_pairs_frame (s : YuvChromaSample) (tg : Yuy2Description)
    (yP uP vP : List Nat) (yo uo vo yoff : Nat) :
    ∀ (pairs x uvx cx : Nat) (dst : List Nat) (pos : Nat), pos < yoff + x * 4 →
      (yuv_to_yuy2_pairs s tg yP uP vP yo uo vo yoff pairs x uvx cx dst).getD pos 0 =
        dst.getD pos 0 := by
  intro pairs
  induction pairs with
  | zero => intros; rfl
  | succ n ih =>
    intro x uvx cx dst pos hpos
    simp only [yuv_to_yuy2_pairs]
    rw [ih _ _ _ _ pos (by omega)]
    rw [getD_set_ne _ _ _ _ (by omega), getD_set_ne _ _ _ _ (by omega),
      getD_set_ne _ _ _ _ (by omega), getD_set_ne _ _ _ _ (by omega)]

theorem yuv_to_yuy2_pairs_content (s : YuvChromaSample) (tg : Yuy2Description)
    (yP uP vP : List Nat) (yo uo vo yoff : Nat) :
    ∀ (pairs x uvx cx : Nat) (dst : List Nat) (j : Nat), j < pairs →
      yoff + (x + j) * 4 + 4 ≤ dst.length →
      ((yuv_to_yuy2_pairs s tg yP uP vP yo uo vo yoff pairs x uvx cx dst).getD
          (yoff + (x + j) * 4 + tg.get_first_y_position) 0 = yP.getD (yo + cx + 2 * j) 0) ∧
      ((yuv_to_yuy2_pairs s tg yP uP vP yo uo vo yoff pairs x uvx cx dst).getD
          (yoff + (x + j) * 4 + tg.get_second_y_position) 0 = yP.getD (yo + cx + 2 * j + 1) 0) ∧
      ((yuv_to_yuy2_pairs s tg yP uP vP yo uo vo yoff pairs x uvx cx dst).getD
          (yoff + (x + j) * 4 + tg.get_u_position) 0 =
        (if s = YuvChromaSample.YUV444 then
          (uP.getD (uo + uvx + s.uv_step * j) 0 + uP.getD (uo + uvx + s.uv_step * j + 1) 0 + 1) / 2
        else uP.getD (uo + uvx + s.uv_step * j) 0)) ∧
      ((yuv_to_yuy2_pairs s tg yP uP vP yo uo vo yoff pairs x uvx cx dst).getD
          (yoff + (x + j) * 4 + tg.get_v_position) 0 =
        (if s = YuvChromaSample.YUV444 then
          (vP.getD (vo + uvx + s.uv_step * j) 0 + vP.getD (vo + uvx + s.uv_step * j + 1) 0 + 1) / 2
        else vP.getD (vo + uvx + s.uv_step * j) 0)) := by
  intro pairs
  induction pairs with
  | zero => intro x uvx cx dst j hj hlen; exact absurd hj (Nat.not_lt_zero j)
  | succ n ih =>
    intro x uvx cx dst j hj hlen
    obtain ⟨hb1, hb2, hb3, hb4⟩ := yuy2_positions_lt tg
    obtain ⟨hd1, hd2, hd3, hd4, hd5, hd6⟩ := yuy2_positions_distinct tg
    cases j with
    | zero =>
      simp only [Nat.add_zero, Nat.mul_zero]
      simp only [yuv_to_yuy2_pairs]
      refine ⟨?_, ?_, ?_, ?_⟩
      · rw [yuv_to_yuy2_pairs_frame s tg yP uP vP yo uo vo yoff _ _ _ _ _ _ (by omega)]
        rw [getD_set_ne _ _ _ _ (by omega), getD_set_ne _ _ _ _ (by omega),
          getD_set_ne _ _ _ _ (by omega),
          getD_set_self _ _ _ (by omega)]
      · rw [yuv_to_yuy2_pairs_frame s tg yP uP vP yo uo vo yoff _ _ _ _ _ _ (by omega)]
        rw [getD_set_ne _ _ _ _ (by omega),
          getD_set_self _ _ _ (by simp only [List.length_set]; omega)]
      · rw [yuv_to_yuy2_pairs_frame s tg yP uP vP yo uo vo yoff _ _ _ _ _ _ (by omega)]
        rw [getD_set_ne _ _ _ _ (by omega), getD_set_ne _ _ _ _ (by omega),
          getD_set_self _ _ _ (by simp only [List.length_set]; omega)]
      · rw [yuv_to_yuy2_pairs_frame s tg yP uP vP yo uo vo yoff _ _ _ _ _ _ (by omega)]
        rw [getD_set_self _ _ _ (by simp only [List.length_set]; omega)]
    | succ j' =>
      simp only [yuv_to_yuy2_pairs]
      have e1 : x + (j' + 1) = x + 1 + j' := by ring
      rw [e1]
      have e2 : yo + cx + 2 * (j' + 1) = yo + (cx + 2) + 2 * j' := by ring
      rw [e2]
      have e3 : uo + uvx + s.uv_step * (j' + 1) = uo + (uvx + s.uv_step) + s.uv_step * j' := by
        ring
      rw [e3]
      have e4 : vo + uvx + s.uv_step * (j' + 1) = vo + (uvx + s.uv_step) + s.uv_step * j' := by
        ring
      rw [e4]
      exact ih (x + 1) (uvx + s.uv_step) (cx + 2) _ j' (by omega)
        (by simp only [List.length_set]; omega)

theorem yuv_to_yuy2_row_length (s : YuvChromaSample) (tg : Yuy2Description)
    (yP uP vP : List Nat) (yo uo vo yoff w : Nat) (dst : List Nat) :
    (yuv_to_yuy2_row s tg yP uP vP yo uo vo yoff w dst).length = dst.length := by
  unfold yuv_to_yuy2_row
  split_ifs <;> simp [yuv_to_yuy2_pairs_length]

theorem yuv_to_yuy2_row_even (s : YuvChromaSample) (tg : Yuy2Description)
    (yP uP vP : List Nat) (yo uo vo yoff w : Nat) (dst : List Nat) (hw : w % 2 = 0) :
    yuv_to_yuy2_row s tg yP uP vP yo uo vo yoff w dst =
      yuv_to_yuy2_pairs s tg yP uP vP yo uo vo yoff (w / 2) 0 0 0 dst := by
  unfold yuv_to_yuy2_row
  rw [if_neg (by omega)]

theorem yuv_to_yuy2_row_frame (s : YuvChromaSample) (tg : Yuy2Description)
    (yP uP vP : List Nat) (yo uo vo yoff w : Nat) (dst : List Nat) (pos : Nat)
    (hpos : pos < yoff) :
    (yuv_to_yuy2_row s tg yP uP vP yo uo vo yoff w dst).getD pos 0 = dst.getD pos 0 := by
  unfold yuv_to_yuy2_row
  split_ifs
  · rw [getD_set_ne _ _ _ _ (by omega), getD_set_ne _ _ _ _ (by omega),
      getD_set_ne _ _ _ _ (by omega), getD_set_ne _ _ _ _ (by omega)]
    exact yuv_to_yuy2_pairs_frame s tg yP uP vP yo uo vo yoff _ _ _ _ _ _ (by omega)
  · exact yuv_to_yuy2_pairs_frame s tg yP uP vP yo uo vo yoff _ _ _ _ _ _ (by omega)

theorem yuv_to_yuy2_rows_length (s : YuvChromaSample) (tg : Yuy2Description)
    (yP uP vP : List Nat) (ys us vs ps w : Nat) :
    ∀ (rows y : Nat) (dst : List Nat),
      (yuv_to_yuy2_rows s tg yP uP vP ys us vs ps w y rows dst).length = dst.length := by
  intro rows
  induction rows with
  | zero => intros; rfl
  | succ n ih =>
    intro y dst
    simp only [yuv_to_yuy2_rows]
    rw [ih, yuv_to_yuy2_row_length]

theorem yuv_to_yuy2_rows_frame (s : YuvChromaSample) (tg : Yuy2Description)
    (yP uP vP : List Nat) (ys us vs ps w : Nat) :
    ∀ (rows y : Nat) (dst : List Nat) (pos : Nat), pos < y * ps →
      (yuv_to_yuy2_rows s tg yP uP vP ys us vs ps w y rows dst).getD pos 0 =
        dst.getD pos 0 := by
  intro rows
  induction rows with
  | zero => intros; rfl
  | succ n ih =>
    intro y dst pos hpos
    have e : (y + 1) * ps = y * ps + ps := by ring
    simp only [yuv_to_yuy2_rows]
    rw [ih (y + 1) _ pos (by omega)]
    exact yuv_to_yuy2_row_frame s tg yP uP vP _ _ _ _ _ _ _ (by omega)

theorem yuv_to_yuy2_rows_unfold_420 (tg : Yuy2Description)
    (yP uP vP : List Nat) (ys us vs ps w y n : Nat) (dst : List Nat) :
    yuv_to_yuy2_rows YuvChromaSample.YUV420 tg yP uP vP ys us vs ps w y (n + 1) dst =
      yuv_to_yuy2_rows YuvChromaSample.YUV420 tg yP uP vP ys us vs ps w (y + 1) n
        (yuv_to_yuy2_row YuvChromaSample.YUV420 tg yP uP vP (y * ys) (y / 2 * us)
          (y / 2 * vs) (y * ps) w dst) := by
  simp [yuv_to_yuy2_rows]

theorem yuv_to_yuy2_rows_content_420 (tg : Yuy2Description) (yP uP vP : List Nat) (m : Nat) :
    ∀ (rows y : Nat) (dst : List Nat),
      (y + rows) * (4 * m) ≤ dst.length →
      ∀ (k j : Nat), k < rows → j < m →
      ((yuv_to_yuy2_rows YuvChromaSample.YUV420 tg yP uP vP (2 * m) m m (4 * m) (2 * m)
          y rows dst).getD ((y + k) * (4 * m) + j * 4 + tg.get_first_y_position) 0 =
        yP.getD ((y + k) * (2 * m) + 2 * j) 0) ∧
      ((yuv_to_yuy2_rows YuvChromaSample.YUV420 tg yP uP vP (2 * m) m m (4 * m) (2 * m)
          y rows dst).getD ((y + k) * (4 * m) + j * 4 + tg.get_second_y_position) 0 =
        yP.getD ((y + k) * (2 * m) + 2 * j + 1) 0) ∧
      ((yuv_to_yuy2_rows YuvChromaSample.YUV420 tg yP uP vP (2 * m) m m (4 * m) (2 * m)
          y rows dst).getD ((y + k) * (4 * m) + j * 4 + tg.get_u_position) 0 =
        uP.getD ((y + k) / 2 * m + j) 0) ∧
      ((yuv_to_yuy2_rows YuvChromaSample.YUV420 tg yP uP vP (2 * m) m m (4 * m) (2 * m)
          y rows dst).getD ((y + k) * (4 * m) + j * 4 + tg.get_v_position) 0 =
        vP.getD ((y + k) / 2 * m + j) 0) := by
  intro rows
  induction rows with
  | zero => intro y dst hlen k j hk hj; exact absurd hk (Nat.not_lt_zero k)
  | succ n ih =>
    intro y dst hlen k j hk hj
    obtain ⟨hb1, hb2, hb3, hb4⟩ := yuy2_positions_lt tg
    rw [yuv_to_yuy2_rows_unfold_420]
    cases k with
    | zero =>
      simp only [Nat.add_zero]
      have hm2 : 2 * m % 2 = 0 := by omega
      rw [yuv_to_yuy2_row_even _ _ _ _ _ _ _ _ _ _ _ hm2]
      have hm : 2 * m / 2 = m := by omega
      rw [hm]
      have hstep : (y + 1) * (4 * m) = y * (4 * m) + 4 * m := by ring
      have hexp : (y + (n + 1)) * (4 * m) = y * (4 * m) + 4 * m + n * (4 * m) := by ring
      obtain ⟨hc1, hc2, hc3, hc4⟩ :=
        yuv_to_yuy2_pairs_content YuvChromaSample.YUV420 tg yP uP vP (y * (2 * m))
          (y / 2 * m) (y / 2 * m) (y * (4 * m)) m 0 0 0 dst j hj (by omega)
      simp only [Nat.zero_add, Nat.add_zero] at hc1 hc2 hc3 hc4
      simp only [YuvChromaSample.uv_step, Nat.one_mul] at hc3 hc4
      rw [if_neg (by decide : ¬(YuvChromaSample.YUV420 = YuvChromaSample.YUV444))] at hc3
      rw [if_neg (by decide : ¬(YuvChromaSample.YUV420 = YuvChromaSample.YUV444))] at hc4
      refine ⟨?_, ?_, ?_, ?_⟩ <;>
        rw [yuv_to_yuy2_rows_frame YuvChromaSample.YUV420 tg yP uP vP (2 * m) m m (4 * m)
          (2 * m) n (y + 1) _ _ (by omega)]
      · exact hc1
      · exact hc2
      · exact hc3
      · exact hc4
    | succ k' =>
      have e : y + (k' + 1) = y + 1 + k' := by ring
      rw [e]
      have hlen' : (y + 1 + n) * (4 * m) ≤
          (yuv_to_yuy2_row YuvChromaSample.YUV420 tg yP uP vP (y * (2 * m)) (y / 2 * m)
            (y / 2 * m) (y * (4 * m)) (2 * m) dst).length := by
        rw [yuv_to_yuy2_row_length]
        have e2 : (y + 1 + n) * (4 * m) = (y + (n + 1)) * (4 * m) := by ring
        omega
      exact ih (y + 1) _ hlen' k' j (by omega) hj

theorem yuy2_to_yuv_pairs_length (s : YuvChromaSample) (tg : Yuy2Description)
    (store : List Nat) (yo uo vo yoff : Nat) :
    ∀ (pairs x uvx cx : Nat) (P : PlanarPlanes),
      ((yuy2_to_yuv_pairs s tg store yo uo vo yoff pairs x uvx cx P).y_plane.length =
        P.y_plane.length) ∧
      ((yuy2_to_yuv_pairs s tg store yo uo vo yoff pairs x uvx cx P).u_plane.length =
        P.u_plane.length) ∧
      ((yuy2_to_yuv_pairs s tg store yo uo vo yoff pairs x uvx cx P).v_plane.length =
        P.v_plane.length) := by
  intro pairs
  induction pairs with
  | zero => intros; exact ⟨rfl, rfl, rfl⟩
  | succ n ih =>
    intro x uvx cx P
    simp only [yuy2_to_yuv_pairs]
    obtain ⟨i1, i2, i3⟩ := ih (x + 1) (uvx + s.uv_step) (cx + 2)
      (yuy2_to_yuv_pair_step s tg store yo uo vo yoff x uvx cx P)
    refine ⟨?_, ?_, ?_⟩
    · rw [i1]; simp only [yuy2_to_yuv_pair_step]; simp
    · rw [i2]; simp only [yuy2_to_yuv_pair_step]; split_ifs <;> simp
    · rw [i3]; simp only [yuy2_to_yuv_pair_step]; split_ifs <;> simp

theorem yuy2_to_yuv_pair_step_y (s : YuvChromaSample) (tg : Yuy2Description)
    (store : List Nat) (yo uo vo yoff x uvx cx : Nat) (P : PlanarPlanes) :
    (yuy2_to_yuv_pair_step s tg store yo uo vo yoff x uvx cx P).y_plane =
      (P.y_plane.set (yo + cx) (store.getD (yoff + x * 4 + tg.get_first_y_position) 0)).set
        (yo + cx + 1) (store.getD (yoff + x * 4 + tg.get_second_y_position) 0) := rfl

theorem yuy2_to_yuv_pair_step_u (s : YuvChromaSample) (tg : Yuy2Description)
    (store : List Nat) (yo uo vo yoff x uvx cx : Nat) (P : PlanarPlanes) :
    (yuy2_to_yuv_pair_step s tg store yo uo vo yoff x uvx cx P).u_plane =
      (if s = YuvChromaSample.YUV444 then
        (P.u_plane.set (uo + uvx) (store.getD (yoff + x * 4 + tg.get_u_position) 0)).set
          (uo + uvx + 1) (store.getD (yoff + x * 4 + tg.get_u_position) 0)
      else P.u_plane.set (uo + uvx) (store.getD (yoff + x * 4 + tg.get_u_position) 0)) := rfl

theorem yuy2_to_yuv_pair_step_v (s : YuvChromaSample) (tg : Yuy2Description)
    (store : List Nat) (yo uo vo yoff x uvx cx : Nat) (P : PlanarPlanes) :
    (yuy2_to_yuv_pair_step s tg store yo uo vo yoff x uvx cx P).v_plane =
      (if s = YuvChromaSample.YUV444 then
        (P.v_plane.set (vo + uvx) (store.getD (yoff + x * 4 + tg.get_v_position) 0)).set
          (vo + uvx + 1) (store.getD (yoff + x * 4 + tg.get_v_position) 0)
      else P.v_plane.set (vo + uvx) (store.getD (yoff + x * 4 + tg.get_v_position) 0)) := rfl

theorem yuy2_to_yuv_pairs_frame (s : YuvChromaSample) (tg : Yuy2Description)
    (store : List Nat) (yo uo vo yoff : Nat) :
    ∀ (pairs x uvx cx : Nat) (P : PlanarPlanes) (posy posu posv : Nat),
      (posy < yo + cx →
        (yuy2_to_yuv_pairs s tg store yo uo vo yoff pairs x uvx cx P).y_plane.getD posy 0 =
          P.y_plane.getD posy 0) ∧
      (posu < uo + uvx →
        (yuy2_to_yuv_pairs s tg store yo uo vo yoff pairs x uvx cx P).u_plane.getD posu 0 =
          P.u_plane.getD posu 0) ∧
      (posv < vo + uvx →
        (yuy2_to_yuv_pairs s tg store yo uo vo yoff pairs x uvx cx P).v_plane.getD posv 0 =
          P.v_plane.getD posv 0) := by
  intro pairs
  induction pairs with
  | zero => intros; exact ⟨fun _ => rfl, fun _ => rfl, fun _ => rfl⟩
  | succ n ih =>
    intro x uvx cx P posy posu posv
    simp only [yuy2_to_yuv_pairs]
    obtain ⟨f1, f2, f3⟩ := ih (x + 1) (uvx + s.uv_step) (cx + 2)
      (yuy2_to_yuv_pair_step s tg store yo uo vo yoff x uvx cx P) posy posu posv
    refine ⟨fun h => ?_, fun h => ?_, fun h => ?_⟩
    · rw [f1 (by omega), yuy2_to_yuv_pair_step_y]
      rw [getD_set_ne _ _ _ _ (by omega), getD_set_ne _ _ _ _ (by omega)]
    · rw [f2 (by omega), yuy2_to_yuv_pair_step_u]
      split_ifs
      · rw [getD_set_ne _ _ _ _ (by omega), getD_set_ne _ _ _ _ (by omega)]
      · rw [getD_set_ne _ _ _ _ (by omega)]
    · rw [f3 (by omega), yuy2_to_yuv_pair_step_v]
      split_ifs
      · rw [getD_set_ne _ _ _ _ (by omega), getD_set_ne _ _ _ _ (by omega)]
      · rw [getD_set_ne _ _ _ _ (by omega)]

theorem yuy2_to_yuv_pairs_content_y (s : YuvChromaSample) (tg : Yuy2Description)
    (store : List Nat) (yo uo vo yoff : Nat) :
    ∀ (pairs x uvx cx : Nat) (P : PlanarPlanes) (j : Nat), j < pairs →
      yo + cx + 2 * j + 2 ≤ P.y_plane.length →
      ((yuy2_to_yuv_pairs s tg store yo uo vo yoff pairs x uvx cx P).y_plane.getD
          (yo + cx + 2 * j) 0 = store.getD (yoff + (x + j) * 4 + tg.get_first_y_position) 0) ∧
      ((yuy2_to_yuv_pairs s tg store yo uo vo yoff pairs x uvx cx P).y_plane.getD
          (yo + cx + 2 * j + 1) 0 =
        store.getD (yoff + (x + j) * 4 + tg.get_second_y_position) 0) := by
  intro pairs
  induction pairs with
  | zero => intro x uvx cx P j hj hlen; exact absurd hj (Nat.not_lt_zero j)
  | succ n ih =>
    intro x uvx cx P j hj hlen
    cases j with
    | zero =>
      simp only [Nat.add_zero, Nat.mul_zero]
      simp only [yuy2_to_yuv_pairs]
      obtain ⟨f1, f2, f3⟩ := yuy2_to_yuv_pairs_frame s tg store yo uo vo yoff n (x + 1)
        (uvx + s.uv_step) (cx + 2)
        (yuy2_to_yuv_pair_step s tg store yo uo vo yoff x uvx cx P) (yo + cx) (yo + cx + 1) 0
      constructor
      · rw [f1 (by omega), yuy2_to_yuv_pair_step_y]
        rw [getD_set_ne _ _ _ _ (by omega), getD_set_self _ _ _ (by omega)]
      · obtain ⟨g1, g2, g3⟩ := yuy2_to_yuv_pairs_frame s tg store yo uo vo yoff n (x + 1)
          (uvx + s.uv_step) (cx + 2)
          (yuy2_to_yuv_pair_step s tg store yo uo vo yoff x uvx cx P) (yo + cx + 1) 0 0
        rw [g1 (by omega), yuy2_to_yuv_pair_step_y]
        rw [getD_set_self _ _ _ (by simp only [List.length_set]; omega)]
    | succ j' =>
      simp only [yuy2_to_yuv_pairs]
      have e1 : x + (j' + 1) = x + 1 + j' := by ring
      rw [e1]
      have e2 : yo + cx + 2 * (j' + 1) = yo + (cx + 2) + 2 * j' := by ring
      rw [e2]
      have hlen' : yo + (cx + 2) + 2 * j' + 2 ≤
          (yuy2_to_yuv_pair_step s tg store yo uo vo yoff x uvx cx P).y_plane.length := by
        rw [yuy2_to_yuv_pair_step_y]
        simp only [List.length_set]
        omega
      exact ih (x + 1) (uvx + s.uv_step) (cx + 2) _ j' (by omega) hlen'

theorem yuy2_to_yuv_pairs_content_uv (s : YuvChromaSample) (tg : Yuy2Description)
    (store : List Nat) (yo uo vo yoff : Nat) (hs : s ≠ YuvChromaSample.YUV444) :
    ∀ (pairs x uvx cx : Nat) (P : PlanarPlanes) (j : Nat), j < pairs →
      uo + uvx + j < P.u_plane.length → vo + uvx + j < P.v_plane.length →
      ((yuy2_to_yuv_pairs s tg store yo uo vo yoff pairs x uvx cx P).u_plane.getD
          (uo + uvx + j) 0 = store.getD (yoff + (x + j) * 4 + tg.get_u_position) 0) ∧
      ((yuy2_to_yuv_pairs s tg store yo uo vo yoff pairs x uvx cx P).v_plane.getD
          (vo + uvx + j) 0 = store.getD (yoff + (x + j) * 4 + tg.get_v_position) 0) := by
  have hstep1 : s.uv_step = 1 := by
    cases s
    · rfl
    · rfl
    · exact absurd rfl hs
  intro pairs
  induction pairs with
  | zero => intro x uvx cx P j hj hu hv; exact absurd hj (Nat.not_lt_zero j)
  | succ n ih =>
    intro x uvx cx P j hj hu hv
    cases j with
    | zero =>
      simp only [Nat.add_zero]
      simp only [yuy2_to_yuv_pairs]
      obtain ⟨f1, f2, f3⟩ := yuy2_to_yuv_pairs_frame s tg store yo uo vo yoff n (x + 1)
        (uvx + s.uv_step) (cx + 2)
        (yuy2_to_yuv_pair_step s tg store yo uo vo yoff x uvx cx P) 0 (uo + uvx) (vo + uvx)
      constructor
      · rw [f2 (by omega), yuy2_to_yuv_pair_step_u, if_neg hs]
        rw [getD_set_self _ _ _ (by omega)]
      · rw [f3 (by omega), yuy2_to_yuv_pair_step_v, if_neg hs]
        rw [getD_set_self _ _ _ (by omega)]
    | succ j' =>
      simp only [yuy2_to_yuv_pairs]
      have e1 : x + (j' + 1) = x + 1 + j' := by ring
      rw [e1]
      have e2 : uo + uvx + (j' + 1) = uo + (uvx + s.uv_step) + j' := by rw [hstep1]; ring
      rw [e2]
      have e3 : vo + uvx + (j' + 1) = vo + (uvx + s.uv_step) + j' := by rw [hstep1]; ring
      rw [e3]
      have hu' : uo + (uvx + s.uv_step) + j' <
          (yuy2_to_yuv_pair_step s tg store yo uo vo yoff x uvx cx P).u_plane.length := by
        rw [yuy2_to_yuv_pair_step_u, if_neg hs]
        simp only [List.length_set]
        omega
      have hv' : vo + (uvx + s.uv_step) + j' <
          (yuy2_to_yuv_pair_step s tg store yo uo vo yoff x uvx cx P).v_plane.length := by
        rw [yuy2_to_yuv_pair_step_v, if_neg hs]
        simp only [List.length_set]
        omega
      exact ih (x + 1) (uvx + s.uv_step) (cx + 2) _ j' (by omega) hu' hv'

theorem yuy2_to_yuv_pairs_content_uv_444 (tg : Yuy2Description)
    (store : List Nat) (yo uo vo yoff : Nat) :
    ∀ (pairs x uvx cx : Nat) (P : PlanarPlanes) (j : Nat), j < pairs →
      uo + uvx + 2 * j + 2 ≤ P.u_plane.length → vo + uvx + 2 * j + 2 ≤ P.v_plane.length →
      ((yuy2_to_yuv_pairs YuvChromaSample.YUV444 tg store yo uo vo yoff pairs x uvx cx
          P).u_plane.getD (uo + uvx + 2 * j) 0 =
        store.getD (yoff + (x + j) * 4 + tg.get_u_position) 0) ∧
      ((yuy2_to_yuv_pairs YuvChromaSample.YUV444 tg store yo uo vo yoff pairs x uvx cx
          P).u_plane.getD (uo + uvx + 2 * j + 1) 0 =
        store.getD (yoff + (x + j) * 4 + tg.get_u_position) 0) ∧
      ((yuy2_to_yuv_pairs YuvChromaSample.YUV444 tg store yo uo vo yoff pairs x uvx cx
          P).v_plane.getD (vo + uvx + 2 * j) 0 =
        store.getD (yoff + (x + j) * 4 + tg.get_v_position) 0) ∧
      ((yuy2_to_yuv_pairs YuvChromaSample.YUV444 tg store yo uo vo yoff pairs x uvx cx
          P).v_plane.getD (vo + uvx + 2 * j + 1) 0 =
        store.getD (yoff + (x + j) * 4 + tg.get_v_position) 0) := by
  intro pairs
  induction pairs with
  | zero => intro x uvx cx P j hj hu hv; exact absurd hj (Nat.not_lt_zero j)
  | succ n ih =>
    intro x uvx cx P j hj hu hv
    cases j with
    | zero =>
      simp only [Nat.add_zero, Nat.mul_zero]
      simp only [yuy2_to_yuv_pairs]
      refine ⟨?_, ?_, ?_, ?_⟩
      · obtain ⟨f1, f2, f3⟩ := yuy2_to_yuv_pairs_frame YuvChromaSample.YUV444 tg store yo uo
          vo yoff n (x + 1) (uvx + YuvChromaSample.YUV444.uv_step) (cx + 2)
          (yuy2_to_yuv_pair_step YuvChromaSample.YUV444 tg store yo uo vo yoff x uvx cx P)
          0 (uo + uvx) 0
        rw [f2 (by simp only [YuvChromaSample.uv_step]; omega), yuy2_to_yuv_pair_step_u,
          if_pos rfl]
        rw [getD_set_ne _ _ _ _ (by omega), getD_set_self _ _ _ (by omega)]
      · obtain ⟨f1, f2, f3⟩ := yuy2_to_yuv_pairs_frame YuvChromaSample.YUV444 tg store yo uo
          vo yoff n (x + 1) (uvx + YuvChromaSample.YUV444.uv_step) (cx + 2)
          (yuy2_to_yuv_pair_step YuvChromaSample.YUV444 tg store yo uo vo yoff x uvx cx P)
          0 (uo + uvx + 1) 0
        rw [f2 (by simp only [YuvChromaSample.uv_step]; omega), yuy2_to_yuv_pair_step_u,
          if_pos rfl]
        rw [getD_set_self _ _ _ (by simp only [List.length_set]; omega)]
      · obtain ⟨f1, f2, f3⟩ := yuy2_to_yuv_pairs_frame YuvChromaSample.YUV444 tg store yo uo
          vo yoff n (x + 1) (uvx + YuvChromaSample.YUV444.uv_step) (cx + 2)
          (yuy2_to_yuv_pair_step YuvChromaSample.YUV444 tg store yo uo vo yoff x uvx cx P)
          0 0 (vo + uvx)
        rw [f3 (by simp only [YuvChromaSample.uv_step]; omega), yuy2_to_yuv_pair_step_v,
          if_pos rfl]
        rw [getD_set_ne _ _ _ _ (by omega), getD_set_self _ _ _ (by omega)]
      · obtain ⟨f1, f2, f3⟩ := yuy2_to_yuv_pairs_frame YuvChromaSample.YUV444 tg store yo uo
          vo yoff n (x + 1) (uvx + YuvChromaSample.YUV444.uv_step) (cx + 2)
          (yuy2_to_yuv_pair_step YuvChromaSample.YUV444 tg store yo uo vo yoff x uvx cx P)
          0 0 (vo + uvx + 1)
        rw [f3 (by simp only [YuvChromaSample.uv_step]; omega), yuy2_to_yuv_pair_step_v,
          if_pos rfl]
        rw [getD_set_self _ _ _ (by simp only [List.length_set]; omega)]
    | succ j' =>
      simp only [yuy2_to_yuv_pairs]
      have e1 : x + (j' + 1) = x + 1 + j' := by ring
      rw [e1]
      have e2 : uo + uvx + 2 * (j' + 1) =
          uo + (uvx + YuvChromaSample.YUV444.uv_step) + 2 * j' := by
        simp only [YuvChromaSample.uv_step]; ring
      rw [e2]
      have e3 : vo + uvx + 2 * (j' + 1) =
          vo + (uvx + YuvChromaSample.YUV444.uv_step) + 2 * j' := by
        simp only [YuvChromaSample.uv_step]; ring
      rw [e3]
      have hu' : uo + (uvx + YuvChromaSample.YUV444.uv_step) + 2 * j' + 2 ≤
          (yuy2_to_yuv_pair_step YuvChromaSample.YUV444 tg store yo uo vo yoff x uvx cx
            P).u_plane.length := by
        rw [yuy2_to_yuv_pair_step_u, if_pos rfl]
        simp only [List.length_set, YuvChromaSample.uv_step]
        omega
      have hv' : vo + (uvx + YuvChromaSample.YUV444.uv_step) + 2 * j' + 2 ≤
          (yuy2_to_yuv_pair_step YuvChromaSample.YUV444 tg store yo uo vo yoff x uvx cx
            P).v_plane.length := by
        rw [yuy2_to_yuv_pair_step_v, if_pos rfl]
        simp only [List.length_set, YuvChromaSample.uv_step]
        omega
      exact ih (x + 1) (uvx + YuvChromaSample.YUV444.uv_step) (cx + 2) _ j' (by omega) hu' hv'

theorem yuy2_to_yuv_row_even (s : YuvChromaSample) (tg : Yuy2Description)
    (store : List Nat) (yo uo vo yoff w : Nat) (P : PlanarPlanes) (hw : w % 2 = 0) :
    yuy2_to_yuv_row s tg store yo uo vo yoff w P =
      yuy2_to_yuv_pairs s tg store yo uo vo yoff (w / 2) 0 0 0 P := by
  unfold yuy2_to_yuv_row
  rw [if_neg (by omega)]

theorem yuy2_to_yuv_row_length (s : YuvChromaSample) (tg : Yuy2Description)
    (store : List Nat) (yo uo vo yoff w : Nat) (P : PlanarPlanes) :
    ((yuy2_to_yuv_row s tg store yo uo vo yoff w P).y_plane.length = P.y_plane.length) ∧
    ((yuy2_to_yuv_row s tg store yo uo vo yoff w P).u_plane.length = P.u_plane.length) ∧
    ((yuy2_to_yuv_row s tg store yo uo vo yoff w P).v_plane.length = P.v_plane.length) := by
  obtain ⟨p1, p2, p3⟩ := yuy2_to_yuv_pairs_length s tg store yo uo vo yoff (w / 2) 0 0 0 P
  unfold yuy2_to_yuv_row
  split_ifs
  · refine ⟨?_, ?_, ?_⟩ <;> simp [p1, p2, p3]
  · exact ⟨p1, p2, p3⟩

theorem yuy2_to_yuv_row_frame (s : YuvChromaSample) (tg : Yuy2Description)
    (store : List Nat) (yo uo vo yoff w : Nat) (P : PlanarPlanes) (posy posu posv : Nat) :
    (posy < yo →
      (yuy2_to_yuv_row s tg store yo uo vo yoff w P).y_plane.getD posy 0 =
        P.y_plane.getD posy 0) ∧
    (posu < uo →
      (yuy2_to_yuv_row s tg store yo uo vo yoff w P).u_plane.getD posu 0 =
        P.u_plane.getD posu 0) ∧
    (posv < vo →
      (yuy2_to_yuv_row s tg store yo uo vo yoff w P).v_plane.getD posv 0 =
        P.v_plane.getD posv 0) := by
  obtain ⟨f1, f2, f3⟩ := yuy2_to_yuv_pairs_frame s tg store yo uo vo yoff (w / 2) 0 0 0 P
    posy posu posv
  unfold yuy2_to_yuv_row
  split_ifs
  · refine ⟨fun h => ?_, fun h => ?_, fun h => ?_⟩
    · show ((yuy2_to_yuv_pairs s tg store yo uo vo yoff (w / 2) 0 0 0
        P).y_plane.set _ _).getD posy 0 = _
      rw [getD_set_ne _ _ _ _ (by omega)]
      exact f1 (by omega)
    · show ((yuy2_to_yuv_pairs s tg store yo uo vo yoff (w / 2) 0 0 0
        P).u_plane.set _ _).getD posu 0 = _
      rw [getD_set_ne _ _ _ _ (by omega)]
      exact f2 (by omega)
    · show ((yuy2_to_yuv_pairs s tg store yo uo vo yoff (w / 2) 0 0 0
        P).v_plane.set _ _).getD posv 0 = _
      rw [getD_set_ne _ _ _ _ (by omega)]
      exact f3 (by omega)
  · exact ⟨fun h => f1 (by omega), fun h => f2 (by omega), fun h => f3 (by omega)⟩

theorem yuy2_to_yuv_rows_length (s : YuvChromaSample) (tg : Yuy2Description)
    (store : List Nat) (ys us vs ps w : Nat) :
    ∀ (rows y yo uo vo po : Nat) (P : PlanarPlanes),
      ((yuy2_to_yuv_rows s tg store ys us vs ps w y rows yo uo vo po P).y_plane.length =
        P.y_plane.length) ∧
      ((yuy2_to_yuv_rows s tg store ys us vs ps w y rows yo uo vo po P).u_plane.length =
        P.u_plane.length) ∧
      ((yuy2_to_yuv_rows s tg store ys us vs ps w y rows yo uo vo po P).v_plane.length =
        P.v_plane.length) := by
  intro rows
  induction rows with
  | zero => intros; exact ⟨rfl, rfl, rfl⟩
  | succ n ih =>
    intro y yo uo vo po P
    simp only [yuy2_to_yuv_rows]
    obtain ⟨r1, r2, r3⟩ := yuy2_to_yuv_row_length s tg store yo uo vo po w P
    refine ⟨?_, ?_, ?_⟩
    · rw [(ih (y + 1) (yo + ys) _ _ (po + ps) _).1, r1]
    · rw [(ih (y + 1) (yo + ys) _ _ (po + ps) _).2.1, r2]
    · rw [(ih (y + 1) (yo + ys) _ _ (po + ps) _).2.2, r3]

theorem yuy2_to_yuv_rows_unfold_420_even (tg : Yuy2Description) (store : List Nat)
    (ys us vs ps w y n yo uo vo po : Nat) (P : PlanarPlanes) (h : y % 2 = 0) :
    yuy2_to_yuv_rows YuvChromaSample.YUV420 tg store ys us vs ps w y (n + 1) yo uo vo po P =
      yuy2_to_yuv_rows YuvChromaSample.YUV420 tg store ys us vs ps w (y + 1) n (yo + ys)
        uo vo (po + ps) (yuy2_to_yuv_row YuvChromaSample.YUV420 tg store yo uo vo po w P) := by
  simp only [yuy2_to_yuv_rows]
  rw [if_neg (by omega), if_neg (by omega)]

theorem yuy2_to_yuv_rows_unfold_420_odd (tg : Yuy2Description) (store : List Nat)
    (ys us vs ps w y n yo uo vo po : Nat) (P : PlanarPlanes) (h : y % 2 = 1) :
    yuy2_to_yuv_rows YuvChromaSample.YUV420 tg store ys us vs ps w y (n + 1) yo uo vo po P =
      yuy2_to_yuv_rows YuvChromaSample.YUV420 tg store ys us vs ps w (y + 1) n (yo + ys)
        (uo + us) (vo + vs) (po + ps)
        (yuy2_to_yuv_row YuvChromaSample.YUV420 tg store yo uo vo po w P) := by
  simp only [yuy2_to_yuv_rows]
  rw [if_pos h, if_pos h]

theorem yuy2_to_yuv_rows_unfold_444 (tg : Yuy2Description) (store : List Nat)
    (ys us vs ps w y n yo uo vo po : Nat) (P : PlanarPlanes) :
    yuy2_to_yuv_rows YuvChromaSample.YUV444 tg store ys us vs ps w y (n + 1) yo uo vo po P =
      yuy2_to_yuv_rows YuvChromaSample.YUV444 tg store ys us vs ps w (y + 1) n (yo + ys)
        (uo + us) (vo + vs) (po + ps)
        (yuy2_to_yuv_row YuvChromaSample.YUV444 tg store yo uo vo po w P) := by
  simp only [yuy2_to_yuv_rows]

theorem yuy2_to_yuv_rows_frame_420 (tg : Yuy2Description) (store : List Nat)
    (ys us vs ps w : Nat) :
    ∀ (rows y yo uo vo po : Nat) (P : PlanarPlanes) (posy posu posv : Nat),
      (posy < yo →
        (yuy2_to_yuv_rows YuvChromaSample.YUV420 tg store ys us vs ps w y rows yo uo vo po
          P).y_plane.getD posy 0 = P.y_plane.getD posy 0) ∧
      (posu < uo →
        (yuy2_to_yuv_rows YuvChromaSample.YUV420 tg store ys us vs ps w y rows yo uo vo po
          P).u_plane.getD posu 0 = P.u_plane.getD posu 0) ∧
      (posv < vo →
        (yuy2_to_yuv_rows YuvChromaSample.YUV420 tg store ys us vs ps w y rows yo uo vo po
          P).v_plane.getD posv 0 = P.v_plane.getD posv 0) := by
  intro rows
  induction rows with
  | zero => intros; exact ⟨fun _ => rfl, fun _ => rfl, fun _ => rfl⟩
  | succ n ih =>
    intro y yo uo vo po P posy posu posv
    obtain ⟨r1, r2, r3⟩ := yuy2_to_yuv_row_frame YuvChromaSample.YUV420 tg store yo uo vo po
      w P posy posu posv
    by_cases hp : y % 2 = 1
    · rw [yuy2_to_yuv_rows_unfold_420_odd tg store ys us vs ps w y n yo uo vo po P hp]
      obtain ⟨i1, i2, i3⟩ := ih (y + 1) (yo + ys) (uo + us) (vo + vs) (po + ps)
        (yuy2_to_yuv_row YuvChromaSample.YUV420 tg store yo uo vo po w P) posy posu posv
      exact ⟨fun h => (i1 (by omega)).trans (r1 h), fun h => (i2 (by omega)).trans (r2 h),
        fun h => (i3 (by omega)).trans (r3 h)⟩
    · rw [yuy2_to_yuv_rows_unfold_420_even tg store ys us vs ps w y n yo uo vo po P (by omega)]
      obtain ⟨i1, i2, i3⟩ := ih (y + 1) (yo + ys) uo vo (po + ps)
        (yuy2_to_yuv_row YuvChromaSample.YUV420 tg store yo uo vo po w P) posy posu posv
      exact ⟨fun h => (i1 (by omega)).trans (r1 h), fun h => (i2 (by omega)).trans (r2 h),
        fun h => (i3 (by omega)).trans (r3 h)⟩

theorem yuy2_to_yuv_rows_frame_444 (tg : Yuy2Description) (store : List Nat)
    (ys us vs ps w : Nat) :
    ∀ (rows y yo uo vo po : Nat) (P : PlanarPlanes) (posy posu posv : Nat),
      (posy < yo →
        (yuy2_to_yuv_rows YuvChromaSample.YUV444 tg store ys us vs ps w y rows yo uo vo po
          P).y_plane.getD posy 0 = P.y_plane.getD posy 0) ∧
      (posu < uo →
        (yuy2_to_yuv_rows YuvChromaSample.YUV444 tg store ys us vs ps w y rows yo uo vo po
          P).u_plane.getD posu 0 = P.u_plane.getD posu 0) ∧
      (posv < vo →
        (yuy2_to_yuv_rows YuvChromaSample.YUV444 tg store ys us vs ps w y rows yo uo vo po
          P).v_plane.getD posv 0 = P.v_plane.getD posv 0) := by
  intro rows
  induction rows with
  | zero => intros; exact ⟨fun _ => rfl, fun _ => rfl, fun _ => rfl⟩
  | succ n ih =>
    intro y yo uo vo po P posy posu posv
    obtain ⟨r1, r2, r3⟩ := yuy2_to_yuv_row_frame YuvChromaSample.YUV444 tg store yo uo vo po
      w P posy posu posv
    rw [yuy2_to_yuv_rows_unfold_444]
    obtain ⟨i1, i2, i3⟩ := ih (y + 1) (yo + ys) (uo + us) (vo + vs) (po + ps)
      (yuy2_to_yuv_row YuvChromaSample.YUV444 tg store yo uo vo po w P) posy posu posv
    exact ⟨fun h => (i1 (by omega)).trans (r1 h), fun h => (i2 (by omega)).trans (r2 h),
      fun h => (i3 (by omega)).trans (r3 h)⟩

theorem yuy2_to_yuv_rows_content_y_420 (tg : Yuy2Description) (store : List Nat) (m : Nat) :
    ∀ (rows y yo uo vo po : Nat) (P : PlanarPlanes),
      yo + rows * (2 * m) ≤ P.y_plane.length →
      ∀ (k j : Nat), k < rows → j < m →
      ((yuy2_to_yuv_rows YuvChromaSample.YUV420 tg store (2 * m) m m (4 * m) (2 * m) y rows
          yo uo vo po P).y_plane.getD (yo + k * (2 * m) + 2 * j) 0 =
        store.getD (po + k * (4 * m) + j * 4 + tg.get_first_y_position) 0) ∧
      ((yuy2_to_yuv_rows YuvChromaSample.YUV420 tg store (2 * m) m m (4 * m) (2 * m) y rows
          yo uo vo po P).y_plane.getD (yo + k * (2 * m) + 2 * j + 1) 0 =
        store.getD (po + k * (4 * m) + j * 4 + tg.get_second_y_position) 0) := by
  intro rows
  induction rows with
  | zero => intro y yo uo vo po P hlen k j hk hj; exact absurd hk (Nat.not_lt_zero k)
  | succ n ih =>
    intro y yo uo vo po P hlen k j hk hj
    have hrc : (n + 1) * (2 * m) = 2 * m + n * (2 * m) := by ring
    have hm2 : 2 * m % 2 = 0 := by omega
    have hm : 2 * m / 2 = m := by omega
    by_cases hp : y % 2 = 1
    · rw [yuy2_to_yuv_rows_unfold_420_odd tg store (2 * m) m m (4 * m) (2 * m) y n yo uo vo
        po P hp]
      cases k with
      | zero =>
        simp only [Nat.zero_mul, Nat.add_zero]
        obtain ⟨f1, f2, f3⟩ := yuy2_to_yuv_rows_frame_420 tg store (2 * m) m m (4 * m)
          (2 * m) n (y + 1) (yo + 2 * m) (uo + m) (vo + m) (po + 4 * m)
          (yuy2_to_yuv_row YuvChromaSample.YUV420 tg store yo uo vo po (2 * m) P)
          (yo + 2 * j) 0 0
        obtain ⟨g1, g2, g3⟩ := yuy2_to_yuv_rows_frame_420 tg store (2 * m) m m (4 * m)
          (2 * m) n (y + 1) (yo + 2 * m) (uo + m) (vo + m) (po + 4 * m)
          (yuy2_to_yuv_row YuvChromaSample.YUV420 tg store yo uo vo po (2 * m) P)
          (yo + 2 * j + 1) 0 0
        rw [yuy2_to_yuv_row_even YuvChromaSample.YUV420 tg store yo uo vo po (2 * m) P hm2,
          hm] at f1 g1 ⊢
        obtain ⟨c1, c2⟩ := yuy2_to_yuv_pairs_content_y YuvChromaSample.YUV420 tg store yo uo
          vo po m 0 0 0 P j hj (by omega)
        simp only [Nat.zero_add, Nat.add_zero] at c1 c2
        exact ⟨(f1 (by omega)).trans c1, (g1 (by omega)).trans c2⟩
      | succ k' =>
        have e1 : yo + (k' + 1) * (2 * m) = yo + 2 * m + k' * (2 * m) := by ring
        rw [e1]
        have e2 : po + (k' + 1) * (4 * m) = po + 4 * m + k' * (4 * m) := by ring
        rw [e2]
        have hlen' : yo + 2 * m + n * (2 * m) ≤
            (yuy2_to_yuv_row YuvChromaSample.YUV420 tg store yo uo vo po (2 * m)
              P).y_plane.length := by
          rw [(yuy2_to_yuv_row_length YuvChromaSample.YUV420 tg store yo uo vo po (2 * m)
            P).1]
          omega
        exact ih (y + 1) (yo + 2 * m) (uo + m) (vo + m) (po + 4 * m) _ hlen' k' j
          (by omega) hj
    · rw [yuy2_to_yuv_rows_unfold_420_even tg store (2 * m) m m (4 * m) (2 * m) y n yo uo vo
        po P (by omega)]
      cases k with
      | zero =>
        simp only [Nat.zero_mul, Nat.add_zero]
        obtain ⟨f1, f2, f3⟩ := yuy2_to_yuv_rows_frame_420 tg store (2 * m) m m (4 * m)
          (2 * m) n (y + 1) (yo + 2 * m) uo vo (po + 4 * m)
          (yuy2_to_yuv_row YuvChromaSample.YUV420 tg store yo uo vo po (2 * m) P)
          (yo + 2 * j) 0 0
        obtain ⟨g1, g2, g3⟩ := yuy2_to_yuv_rows_frame_420 tg store (2 * m) m m (4 * m)
          (2 * m) n (y + 1) (yo + 2 * m) uo vo (po + 4 * m)
          (yuy2_to_yuv_row YuvChromaSample.YUV420 tg store yo uo vo po (2 * m) P)
          (yo + 2 * j + 1) 0 0
        rw [yuy2_to_yuv_row_even YuvChromaSample.YUV420 tg store yo uo vo po (2 * m) P hm2,
          hm] at f1 g1 ⊢
        obtain ⟨c1, c2⟩ := yuy2_to_yuv_pairs_content_y YuvChromaSample.YUV420 tg store yo uo
          vo po m 0 0 0 P j hj (by omega)
        simp only [Nat.zero_add, Nat.add_zero] at c1 c2
        exact ⟨(f1 (by omega)).trans c1, (g1 (by omega)).trans c2⟩
      | succ k' =>
        have e1 : yo + (k' + 1) * (2 * m) = yo + 2 * m + k' * (2 * m) := by ring
        rw [e1]
        have e2 : po + (k' + 1) * (4 * m) = po + 4 * m + k' * (4 * m) := by ring
        rw [e2]
        have hlen' : yo + 2 * m + n * (2 * m) ≤
            (yuy2_to_yuv_row YuvChromaSample.YUV420 tg store yo uo vo po (2 * m)
              P).y_plane.length := by
          rw [(yuy2_to_yuv_row_length YuvChromaSample.YUV420 tg store yo uo vo po (2 * m)
            P).1]
          omega
        exact ih (y + 1) (yo + 2 * m) uo vo (po + 4 * m) _ hlen' k' j (by omega) hj

theorem yuy2_to_yuv_rows_content_uv_420 (tg : Yuy2Description) (store : List Nat) (m : Nat) :
    ∀ (n2 y yo uo vo po : Nat) (P : PlanarPlanes),
      y % 2 = 0 →
      uo + n2 * m ≤ P.u_plane.length → vo + n2 * m ≤ P.v_plane.length →
      ∀ (k j : Nat), k < n2 → j < m →
      ((yuy2_to_yuv_rows YuvChromaSample.YUV420 tg store (2 * m) m m (4 * m) (2 * m) y
          (2 * n2) yo uo vo po P).u_plane.getD (uo + k * m + j) 0 =
        store.getD (po + (2 * k + 1) * (4 * m) + j * 4 + tg.get_u_position) 0) ∧
      ((yuy2_to_yuv_rows YuvChromaSample.YUV420 tg store (2 * m) m m (4 * m) (2 * m) y
          (2 * n2) yo uo vo po P).v_plane.getD (vo + k * m + j) 0 =
        store.getD (po + (2 * k + 1) * (4 * m) + j * 4 + tg.get_v_position) 0) := by
  intro n2
  induction n2 with
  | zero => intro y yo uo vo po P hpar hu hv k j hk hj; exact absurd hk (Nat.not_lt_zero k)
  | succ n ih =>
    intro y yo uo vo po P hpar hu hv k j hk hj
    have hcnt : 2 * (n + 1) = 2 * n + 1 + 1 := by ring
    rw [hcnt]
    rw [yuy2_to_yuv_rows_unfold_420_even tg store (2 * m) m m (4 * m) (2 * m) y (2 * n + 1)
      yo uo vo po P hpar]
    rw [yuy2_to_yuv_rows_unfold_420_odd tg store (2 * m) m m (4 * m) (2 * m) (y + 1) (2 * n)
      (yo + 2 * m) uo vo (po + 4 * m) _ (by omega)]
    have hm2 : 2 * m % 2 = 0 := by omega
    have hm : 2 * m / 2 = m := by omega
    have hrc : (n + 1) * m = m + n * m := by ring
    obtain ⟨l1a, l1b, l1c⟩ := yuy2_to_yuv_row_length YuvChromaSample.YUV420 tg store yo uo vo
      po (2 * m) P
    obtain ⟨l2a, l2b, l2c⟩ := yuy2_to_yuv_row_length YuvChromaSample.YUV420 tg store
      (yo + 2 * m) uo vo (po + 4 * m) (2 * m)
      (yuy2_to_yuv_row YuvChromaSample.YUV420 tg store yo uo vo po (2 * m) P)
    cases k with
    | zero =>
      simp only [Nat.zero_mul, Nat.add_zero, Nat.mul_zero, Nat.zero_add, Nat.one_mul]
      obtain ⟨f1, f2, f3⟩ := yuy2_to_yuv_rows_frame_420 tg store (2 * m) m m (4 * m) (2 * m)
        (2 * n) (y + 2) (yo + 2 * m + 2 * m) (uo + m) (vo + m) (po + 4 * m + 4 * m)
        (yuy2_to_yuv_row YuvChromaSample.YUV420 tg store (yo + 2 * m) uo vo (po + 4 * m)
          (2 * m) (yuy2_to_yuv_row YuvChromaSample.YUV420 tg store yo uo vo po (2 * m) P))
        0 (uo + j) (vo + j)
      rw [yuy2_to_yuv_row_even YuvChromaSample.YUV420 tg store (yo + 2 * m) uo vo
        (po + 4 * m) (2 * m) _ hm2, hm] at f2 f3 ⊢
      obtain ⟨c1, c2⟩ := yuy2_to_yuv_pairs_content_uv YuvChromaSample.YUV420 tg store
        (yo + 2 * m) uo vo (po + 4 * m) (by decide) m 0 0 0
        (yuy2_to_yuv_row YuvChromaSample.YUV420 tg store yo uo vo po (2 * m) P) j hj
        (by omega) (by omega)
      simp only [Nat.zero_add, Nat.add_zero] at c1 c2
      exact ⟨(f2 (by omega)).trans c1, (f3 (by omega)).trans c2⟩
    | succ k' =>
      have e1 : uo + (k' + 1) * m + j = uo + m + k' * m + j := by ring
      rw [e1]
      have e2 : vo + (k' + 1) * m + j = vo + m + k' * m + j := by ring
      rw [e2]
      have e3 : po + (2 * (k' + 1) + 1) * (4 * m) = po + 4 * m + 4 * m +
          (2 * k' + 1) * (4 * m) := by ring
      rw [e3]
      exact ih (y + 2) (yo + 2 * m + 2 * m) (uo + m) (vo + m) (po + 4 * m + 4 * m) _
        (by omega) (by rw [l2b, l1b]; omega) (by rw [l2c, l1c]; omega) k' j (by omega) hj

theorem yuy2_to_yuv_rows_content_uv_444 (tg : Yuy2Description) (store : List Nat) (m : Nat) :
    ∀ (rows y yo uo vo po : Nat) (P : PlanarPlanes),
      uo + rows * (2 * m) ≤ P.u_plane.length → vo + rows * (2 * m) ≤ P.v_plane.length →
      ∀ (k j : Nat), k < rows → j < m →
      ((yuy2_to_yuv_rows YuvChromaSample.YUV444 tg store (2 * m) (2 * m) (2 * m) (4 * m)
          (2 * m) y rows yo uo vo po P).u_plane.getD (uo + k * (2 * m) + 2 * j) 0 =
        store.getD (po + k * (4 * m) + j * 4 + tg.get_u_position) 0) ∧
      ((yuy2_to_yuv_rows YuvChromaSample.YUV444 tg store (2 * m) (2 * m) (2 * m) (4 * m)
          (2 * m) y rows yo uo vo po P).u_plane.getD (uo + k * (2 * m) + 2 * j + 1) 0 =
        store.getD (po + k * (4 * m) + j * 4 + tg.get_u_position) 0) ∧
      ((yuy2_to_yuv_rows YuvChromaSample.YUV444 tg store (2 * m) (2 * m) (2 * m) (4 * m)
          (2 * m) y rows yo uo vo po P).v_plane.getD (vo + k * (2 * m) + 2 * j) 0 =
        store.getD (po + k * (4 * m) + j * 4 + tg.get_v_position) 0) ∧
      ((yuy2_to_yuv_rows YuvChromaSample.YUV444 tg store (2 * m) (2 * m) (2 * m) (4 * m)
          (2 * m) y rows yo uo vo po P).v_plane.getD (vo + k * (2 * m) + 2 * j + 1) 0 =
        store.getD (po + k * (4 * m) + j * 4 + tg.get_v_position) 0) := by
  intro rows
  induction rows with
  | zero => intro y yo uo vo po P hu hv k j hk hj; exact absurd hk (Nat.not_lt_zero k)
  | succ n ih =>
    intro y yo uo vo po P hu hv k j hk hj
    have hrc : (n + 1) * (2 * m) = 2 * m + n * (2 * m) := by ring
    have hm2 : 2 * m % 2 = 0 := by omega
    have hm : 2 * m / 2 = m := by omega
    obtain ⟨l1a, l1b, l1c⟩ := yuy2_to_yuv_row_length YuvChromaSample.YUV444 tg store yo uo vo
      po (2 * m) P
    rw [yuy2_to_yuv_rows_unfold_444 tg store (2 * m) (2 * m) (2 * m) (4 * m) (2 * m) y n yo
      uo vo po P]
    cases k with
    | zero =>
      simp only [Nat.zero_mul, Nat.add_zero]
      obtain ⟨f1, f2, f3⟩ := yuy2_to_yuv_rows_frame_444 tg store (2 * m) (2 * m) (2 * m)
        (4 * m) (2 * m) n (y + 1) (yo + 2 * m) (uo + 2 * m) (vo + 2 * m) (po + 4 * m)
        (yuy2_to_yuv_row YuvChromaSample.YUV444 tg store yo uo vo po (2 * m) P)
        0 (uo + 2 * j) (vo + 2 * j)
      obtain ⟨g1, g2, g3⟩ := yuy2_to_yuv_rows_frame_444 tg store (2 * m) (2 * m) (2 * m)
        (4 * m) (2 * m) n (y + 1) (yo + 2 * m) (uo + 2 * m) (vo + 2 * m) (po + 4 * m)
        (yuy2_to_yuv_row YuvChromaSample.YUV444 tg store yo uo vo po (2 * m) P)
        0 (uo + 2 * j + 1) (vo + 2 * j + 1)
      rw [yuy2_to_yuv_row_even YuvChromaSample.YUV444 tg store yo uo vo po (2 * m) P hm2,
        hm] at f2 f3 g2 g3 ⊢
      obtain ⟨c1, c2, c3, c4⟩ := yuy2_to_yuv_pairs_content_uv_444 tg store yo uo vo po m
        0 0 0 P j hj (by omega) (by omega)
      simp only [Nat.zero_add, Nat.add_zero] at c1 c2 c3 c4
      exact ⟨(f2 (by omega)).trans c1, (g2 (by omega)).trans c2,
        (f3 (by omega)).trans c3, (g3 (by omega)).trans c4⟩
    | succ k' =>
      have e1 : uo + (k' + 1) * (2 * m) = uo + 2 * m + k' * (2 * m) := by ring
      rw [e1]
      have e2 : vo + (k' + 1) * (2 * m) = vo + 2 * m + k' * (2 * m) := by ring
      rw [e2]
      have e3 : po + (k' + 1) * (4 * m) = po + 4 * m + k' * (4 * m) := by ring
      rw [e3]
      exact ih (y + 1) (yo + 2 * m) (uo + 2 * m) (vo + 2 * m) (po + 4 * m) _
        (by rw [l1b]; omega) (by rw [l1c]; omega) k' j (by omega) hj

theorem planar_planes_eq_of_planes (P Q : PlanarPlanes) (h1 : P.y_plane = Q.y_plane)
    (h2 : P.u_plane = Q.u_plane) (h3 : P.v_plane = Q.v_plane) : P = Q := by
  cases P
  cases Q
  simp_all

/-- C8: for every image of even width 2m and even height 2n, packing 4:2:0
planar Y/U/V to YUYV with `yuv_to_yuy2_impl` and unpacking the result with
`yuy2_to_yuv_impl` reproduces every original Y, U and V sample exactly
(plain byte copies, no averaging in either direction at 4:2:0). -/
theorem c8_packed_roundtrip_420 (m n : Nat) (yP uP vP yP0 uP0 vP0 packed0 : List Nat)
    (hy : yP.length = 2 * n * (2 * m)) (hu : uP.length = n * m) (hv : vP.length = n * m)
    (hy0 : yP0.length = 2 * n * (2 * m)) (hu0 : uP0.length = n * m)
    (hv0 : vP0.length = n * m) (hp : packed0.length = 2 * n * (4 * m)) :
    yuy2_to_yuv_impl YuvChromaSample.YUV420 Yuy2Description.YUYV yP0 (2 * m) uP0 m vP0 m
      (yuv_to_yuy2_impl YuvChromaSample.YUV420 Yuy2Description.YUYV yP (2 * m) uP m vP m
        packed0 (4 * m) (2 * m) (2 * n)) (4 * m) (2 * m) (2 * n) =
      { y_plane := yP, u_plane := uP, v_plane := vP } := by
  simp only [yuy2_to_yuv_impl, yuv_to_yuy2_impl]
  by_cases h0 : n * m = 0
  · have hz : 2 * n * (2 * m) = 0 := by
      have : 2 * n * (2 * m) = 4 * (n * m) := by ring
      omega
    have hyP : yP = [] := List.eq_nil_of_length_eq_zero (by omega)
    have huP : uP = [] := List.eq_nil_of_length_eq_zero (by omega)
    have hvP : vP = [] := List.eq_nil_of_length_eq_zero (by omega)
    subst hyP
    subst huP
    subst hvP
    obtain ⟨hoy, hou, hov⟩ := yuy2_to_yuv_rows_length YuvChromaSample.YUV420
      Yuy2Description.YUYV
      (yuv_to_yuy2_rows YuvChromaSample.YUV420 Yuy2Description.YUYV [] [] [] (2 * m) m m
        (4 * m) (2 * m) 0 (packed0.length / (4 * m)) packed0)
      (2 * m) m m (4 * m) (2 * m) (2 * n) 0 0 0 0 0
      { y_plane := yP0, u_plane := uP0, v_plane := vP0 }
    apply planar_planes_eq_of_planes
    · refine List.eq_nil_of_length_eq_zero ?_
      rw [hoy]
      show yP0.length = 0
      omega
    · refine List.eq_nil_of_length_eq_zero ?_
      rw [hou]
      show uP0.length = 0
      omega
    · refine List.eq_nil_of_length_eq_zero ?_
      rw [hov]
      show vP0.length = 0
      omega
  · have hm : 0 < m := by
      rcases Nat.eq_zero_or_pos m with h | h
      · exact absurd (by rw [h]; ring) h0
      · exact h
    have hn : 0 < n := by
      rcases Nat.eq_zero_or_pos n with h | h
      · exact absurd (by rw [h]; ring) h0
      · exact h
    have hcount : packed0.length / (4 * m) = 2 * n := by
      rw [hp]
      exact Nat.mul_div_cancel (2 * n) (by omega)
    simp only [hcount]
    apply planar_planes_eq_of_planes
    all_goals simp only []
    · apply List.ext_getElem
      · rw [show ∀ (st : List Nat), (yuy2_to_yuv_rows YuvChromaSample.YUV420
          Yuy2Description.YUYV st (2 * m) m m (4 * m) (2 * m) 0 (2 * n) 0 0 0 0
          { y_plane := yP0, u_plane := uP0, v_plane := vP0 }).y_plane.length =
          yP0.length from fun st => (yuy2_to_yuv_rows_length _ _ st _ _ _ _ _ _ _ _ _ _ _
            _).1]
        omega
      · intro i h1 h2
        have hi : i < 2 * n * (2 * m) := by omega
        have hk : i / (2 * m) < 2 * n := by
          rw [Nat.div_lt_iff_lt_mul (by omega)]
          omega
        have hj : i % (2 * m) / 2 < m := by
          have := Nat.mod_lt i (show 0 < 2 * m by omega)
          omega
        obtain ⟨b1, b2⟩ := yuy2_to_yuv_rows_content_y_420 Yuy2Description.YUYV
          (yuv_to_yuy2_rows YuvChromaSample.YUV420 Yuy2Description.YUYV yP uP vP (2 * m) m m
            (4 * m) (2 * m) 0 (2 * n) packed0) m (2 * n) 0 0 0 0 0
          { y_plane := yP0, u_plane := uP0, v_plane := vP0 } (by simp only []; omega)
          (i / (2 * m)) (i % (2 * m) / 2) hk hj
        obtain ⟨a1, a2, a3, a4⟩ := yuv_to_yuy2_rows_content_420 Yuy2Description.YUYV yP uP
          vP m (2 * n) 0 packed0 (by simp only [Nat.zero_add]; omega) (i / (2 * m))
          (i % (2 * m) / 2) hk hj
        simp only [Nat.zero_add] at b1 b2 a1 a2 a3 a4
        have hdm : 2 * m * (i / (2 * m)) + i % (2 * m) = i := Nat.div_add_mod i (2 * m)
        have hcm : i / (2 * m) * (2 * m) = 2 * m * (i / (2 * m)) := by ring
        rcases Nat.mod_two_eq_zero_or_one (i % (2 * m)) with hr | hr
        · have hieq : i = i / (2 * m) * (2 * m) + 2 * (i % (2 * m) / 2) := by omega
          rw [← List.getD_eq_getElem _ 0 h1, ← List.getD_eq_getElem _ 0 h2, hieq]
          exact b1.trans a1
        · have hieq : i = i / (2 * m) * (2 * m) + 2 * (i % (2 * m) / 2) + 1 := by omega
          rw [← List.getD_eq_getElem _ 0 h1, ← List.getD_eq_getElem _ 0 h2, hieq]
          exact b2.trans a2
    · apply List.ext_getElem
      · rw [show ∀ (st : List Nat), (yuy2_to_yuv_rows YuvChromaSample.YUV420
          Yuy2Description.YUYV st (2 * m) m m (4 * m) (2 * m) 0 (2 * n) 0 0 0 0
          { y_plane := yP0, u_plane := uP0, v_plane := vP0 }).u_plane.length =
          uP0.length from fun st => (yuy2_to_yuv_rows_length _ _ st _ _ _ _ _ _ _ _ _ _ _
            _).2.1]
        omega
      · intro i h1 h2
        have hi : i < n * m := by omega
        have hk : i / m < n := by
          rw [Nat.div_lt_iff_lt_mul (by omega)]
          omega
        have hj : i % m < m := Nat.mod_lt i (by omega)
        obtain ⟨b1, b2⟩ := yuy2_to_yuv_rows_content_uv_420 Yuy2Description.YUYV
          (yuv_to_yuy2_rows YuvChromaSample.YUV420 Yuy2Description.YUYV yP uP vP (2 * m) m m
            (4 * m) (2 * m) 0 (2 * n) packed0) m n 0 0 0 0 0
          { y_plane := yP0, u_plane := uP0, v_plane := vP0 } (by omega)
          (by simp only []; omega) (by simp only []; omega) (i / m) (i % m) hk hj
        obtain ⟨a1, a2, a3, a4⟩ := yuv_to_yuy2_rows_content_420 Yuy2Description.YUYV yP uP
          vP m (2 * n) 0 packed0 (by simp only [Nat.zero_add]; omega) (2 * (i / m) + 1)
          (i % m) (by omega) hj
        simp only [Nat.zero_add] at b1 b2 a1 a2 a3 a4
        have hhalf : (2 * (i / m) + 1) / 2 = i / m := by omega
        rw [hhalf] at a3
        have hdm : m * (i / m) + i % m = i := Nat.div_add_mod i m
        have hcm : i / m * m = m * (i / m) := by ring
        have hieq : i = i / m * m + i % m := by omega
        rw [← List.getD_eq_getElem _ 0 h1, ← List.getD_eq_getElem _ 0 h2, hieq]
        exact b1.trans a3
    · apply List.ext_getElem
      · rw [show ∀ (st : List Nat), (yuy2_to_yuv_rows YuvChromaSample.YUV420
          Yuy2Description.YUYV st (2 * m) m m (4 * m) (2 * m) 0 (2 * n) 0 0 0 0
          { y_plane := yP0, u_plane := uP0, v_plane := vP0 }).v_plane.length =
          vP0.length from fun st => (yuy2_to_yuv_rows_length _ _ st _ _ _ _ _ _ _ _ _ _ _
            _).2.2]
        omega
      · intro i h1 h2
        have hi : i < n * m := by omega
        have hk : i / m < n := by
          rw [Nat.div_lt_iff_lt_mul (by omega)]
          omega
        have hj : i % m < m := Nat.mod_lt i (by omega)
        obtain ⟨b1, b2⟩ := yuy2_to_yuv_rows_content_uv_420 Yuy2Description.YUYV
          (yuv_to_yuy2_rows YuvChromaSample.YUV420 Yuy2Description.YUYV yP uP vP (2 * m) m m
            (4 * m) (2 * m) 0 (2 * n) packed0) m n 0 0 0 0 0
          { y_plane := yP0, u_plane := uP0, v_plane := vP0 } (by omega)
          (by simp only []; omega) (by simp only []; omega) (i / m) (i % m) hk hj
        obtain ⟨a1, a2, a3, a4⟩ := yuv_to_yuy2_rows_content_420 Yuy2Description.YUYV yP uP
          vP m (2 * n) 0 packed0 (by simp only [Nat.zero_add]; omega) (2 * (i / m) + 1)
          (i % m) (by omega) hj
        simp only [Nat.zero_add] at b1 b2 a1 a2 a3 a4
        have hhalf : (2 * (i / m) + 1) / 2 = i / m := by omega
        rw [hhalf] at a4
        have hdm : m * (i / m) + i % m = i := Nat.div_add_mod i m
        have hcm : i / m * m = m * (i / m) := by ring
        have hieq : i = i / m * m + i % m := by omega
        rw [← List.getD_eq_getElem _ 0 h1, ← List.getD_eq_getElem _ 0 h2, hieq]
        exact b2.trans a4

/-- Witness for C8 on a 2×2 image (m = n = 1) with distinct samples. -/
theorem c8_packed_roundtrip_420_witness :
    (([1, 2, 3, 4] : List Nat).length = 2 * 1 * (2 * 1) ∧
      ([5] : List Nat).length = 1 * 1 ∧ ([6] : List Nat).length = 1 * 1 ∧
      ([0, 0, 0, 0] : List Nat).length = 2 * 1 * (2 * 1) ∧
      ([9] : List Nat).length = 1 * 1 ∧ ([9] : List Nat).length = 1 * 1 ∧
      ([0, 0, 0, 0, 0, 0, 0, 0] : List Nat).length = 2 * 1 * (4 * 1)) ∧
    yuy2_to_yuv_impl YuvChromaSample.YUV420 Yuy2Description.YUYV [0, 0, 0, 0] (2 * 1) [9] 1
      [9] 1
      (yuv_to_yuy2_impl YuvChromaSample.YUV420 Yuy2Description.YUYV [1, 2, 3, 4] (2 * 1) [5]
        1 [6] 1 [0, 0, 0, 0, 0, 0, 0, 0] (4 * 1) (2 * 1) (2 * 1)) (4 * 1) (2 * 1) (2 * 1) =
      { y_plane := [1, 2, 3, 4], u_plane := [5], v_plane := [6] } :=
  ⟨⟨rfl, rfl, rfl, rfl, rfl, rfl, rfl⟩,
    c8_packed_roundtrip_420 1 1 [1, 2, 3, 4] [5] [6] [0, 0, 0, 0] [9] [9]
      [0, 0, 0, 0, 0, 0, 0, 0] rfl rfl rfl rfl rfl rfl rfl⟩

/-- C10: converting packed 4:2:2 (any of YUYV/UYVY/YVYU/VYUY) to planar
4:4:4, each complete 2-pixel group's single packed U byte and single packed
V byte are written unchanged to both corresponding columns of the
full-width U and V planes — nearest-neighbour duplication, no averaging. -/
theorem c10_yuy2_to_444_duplicates_chroma (tg : Yuy2Description) (m rows : Nat)
    (yP0 uP0 vP0 packed : List Nat)
    (hu0 : uP0.length = rows * (2 * m)) (hv0 : vP0.length = rows * (2 * m))
    (k j : Nat) (hk : k < rows) (hj : j < m) :
    ((yuy2_to_yuv_impl YuvChromaSample.YUV444 tg yP0 (2 * m) uP0 (2 * m) vP0 (2 * m) packed
        (4 * m) (2 * m) rows).u_plane.getD (k * (2 * m) + 2 * j) 0 =
      packed.getD (k * (4 * m) + j * 4 + tg.get_u_position) 0) ∧
    ((yuy2_to_yuv_impl YuvChromaSample.YUV444 tg yP0 (2 * m) uP0 (2 * m) vP0 (2 * m) packed
        (4 * m) (2 * m) rows).u_plane.getD (k * (2 * m) + 2 * j + 1) 0 =
      packed.getD (k * (4 * m) + j * 4 + tg.get_u_position) 0) ∧
    ((yuy2_to_yuv_impl YuvChromaSample.YUV444 tg yP0 (2 * m) uP0 (2 * m) vP0 (2 * m) packed
        (4 * m) (2 * m) rows).v_plane.getD (k * (2 * m) + 2 * j) 0 =
      packed.getD (k * (4 * m) + j * 4 + tg.get_v_position) 0) ∧
    ((yuy2_to_yuv_impl YuvChromaSample.YUV444 tg yP0 (2 * m) uP0 (2 * m) vP0 (2 * m) packed
        (4 * m) (2 * m) rows).v_plane.getD (k * (2 * m) + 2 * j + 1) 0 =
      packed.getD (k * (4 * m) + j * 4 + tg.get_v_position) 0) := by
  simp only [yuy2_to_yuv_impl]
  obtain ⟨c1, c2, c3, c4⟩ := yuy2_to_yuv_rows_content_uv_444 tg packed m rows 0 0 0 0 0
    { y_plane := yP0, u_plane := uP0, v_plane := vP0 }
    (by simp only []; omega) (by simp only []; omega) k j hk hj
  simp only [Nat.zero_add] at c1 c2 c3 c4
  exact ⟨c1, c2, c3, c4⟩

/-- Witness for C10: a single UYVY group [1, 2, 3, 4] (U = 1, V = 3) lands
in both columns of the U and V planes. -/
theorem c10_yuy2_to_444_duplicates_chroma_witness :
    (([0, 0] : List Nat).length = 1 * (2 * 1) ∧ ([0, 0] : List Nat).length = 1 * (2 * 1) ∧
      0 < 1 ∧ 0 < 1) ∧
    (((yuy2_to_yuv_impl YuvChromaSample.YUV444 Yuy2Description.UYVY [0, 0] (2 * 1) [0, 0]
        (2 * 1) [0, 0] (2 * 1) [1, 2, 3, 4] (4 * 1) (2 * 1) 1).u_plane.getD
        (0 * (2 * 1) + 2 * 0) 0 =
      ([1, 2, 3, 4] : List Nat).getD
        (0 * (4 * 1) + 0 * 4 + Yuy2Description.UYVY.get_u_position) 0) ∧
    ((yuy2_to_yuv_impl YuvChromaSample.YUV444 Yuy2Description.UYVY [0, 0] (2 * 1) [0, 0]
        (2 * 1) [0, 0] (2 * 1) [1, 2, 3, 4] (4 * 1) (2 * 1) 1).u_plane.getD
        (0 * (2 * 1) + 2 * 0 + 1) 0 =
      ([1, 2, 3, 4] : List Nat).getD
        (0 * (4 * 1) + 0 * 4 + Yuy2Description.UYVY.get_u_position) 0) ∧
    ((yuy2_to_yuv_impl YuvChromaSample.YUV444 Yuy2Description.UYVY [0, 0] (2 * 1) [0, 0]
        (2 * 1) [0, 0] (2 * 1) [1, 2, 3, 4] (4 * 1) (2 * 1) 1).v_plane.getD
        (0 * (2 * 1) + 2 * 0) 0 =
      ([1, 2, 3, 4] : List Nat).getD
        (0 * (4 * 1) + 0 * 4 + Yuy2Description.UYVY.get_v_position) 0) ∧
    ((yuy2_to_yuv_impl YuvChromaSample.YUV444 Yuy2Description.UYVY [0, 0] (2 * 1) [0, 0]
        (2 * 1) [0, 0] (2 * 1) [1, 2, 3, 4] (4 * 1) (2 * 1) 1).v_plane.getD
        (0 * (2 * 1) + 2 * 0 + 1) 0 =
      ([1, 2, 3, 4] : List Nat).getD
        (0 * (4 * 1) + 0 * 4 + Yuy2Description.UYVY.get_v_position) 0)) :=
  ⟨⟨rfl, rfl, Nat.zero_lt_one, Nat.zero_lt_one⟩,
    c10_yuy2_to_444_duplicates_chroma Yuy2Description.UYVY 1 1 [0, 0] [0, 0] [0, 0]
      [1, 2, 3, 4] rfl rfl 0 0 Nat.zero_lt_one Nat.zero_lt_one⟩
